import Mathlib

/-!
Verification of the Blueprint repository's CIP-57 core against its
natural-language specification.

The development shallowly embeds the TypeScript sources:
  * src/lib/params/paramChecker.ts   (value validator, local $ref resolver)
  * src/lib/cip57/params.ts          (descriptor builder's resolver/deref and
                                      the bytes validate/coerce closures)
  * src/lib/validatePlutusJson.ts    (structural wrapper + equality guards)
  * src/lib/AikenPlutusJsonSchema.ts (zod structural schema)
  * the grouping pass (parseAikenBlueprintStrict and its helpers)

JavaScript runtime values are modelled by the inductive `JsValue`.
Modelling conventions (noted where they matter):
  * JS numbers that are integers are `JsValue.int`; non-integral numbers are
    abstract atoms `JsValue.nonint id` (two non-integral numbers are equal
    exactly when their ids are equal).  BigInts are `JsValue.big`.
  * Property lookup on non-objects (which yields `undefined` in JS) is
    modelled by `none` / `JsValue.undef`.
  * Unbounded JS recursion is modelled with an explicit fuel argument: the
    fuel counts call-stack depth, and a `none` result means the computation
    did not finish within that depth.
-/

set_option maxHeartbeats 1000000

namespace Blueprint

/-- A JavaScript/JSON runtime value. -/
inductive JsValue where
  | int (n : Int)
  | nonint (id : Nat)
  | big (n : Int)
  | str (s : String)
  | bool (b : Bool)
  | null
  | undef
  | fn (id : Nat)
  | arr (elems : List JsValue)
  | obj (fields : List (String × JsValue))
deriving Repr, Inhabited

/-- `value === null` (used by the `#unit` branch). -/
def isNullV : JsValue → Bool
  | .null => true
  | _ => false

/-- First-match association-list lookup: JS own-property access on a plain
object literal (object keys are unique in JS; lists model them directly). -/
def lookupField : List (String × JsValue) → String → Option JsValue
  | [], _ => none
  | (k, v) :: rest, key => if k = key then some v else lookupField rest key

/-- `x.prop` where `x` is any value: property access yields the stored value
on objects and `undefined` (here `none`) elsewhere. -/
def getField : JsValue → String → Option JsValue
  | .obj fs, k => lookupField fs k
  | _, _ => none

/-- `isPlainObject` from paramChecker.ts: a non-null object whose prototype is
`Object.prototype` (so arrays and primitives are excluded). -/
def isPlainObject : JsValue → Bool
  | .obj _ => true
  | _ => false

/-- `isEmptyObject` from paramChecker.ts. -/
def isEmptyObject : JsValue → Bool
  | .obj [] => true
  | _ => false

/-- `isInteger` from paramChecker.ts: a bigint, or a number for which
`Number.isInteger` holds. -/
def isIntegerValue : JsValue → Bool
  | .big _ => true
  | .int _ => true
  | _ => false

/-- `s.startsWith "#"` (char-list form, so concrete runs reduce). -/
def startsWithHash (s : String) : Bool :=
  match s.data with
  | '#' :: _ => true
  | _ => false

/-- Hexadecimal digit (the `[0-9a-fA-F]` character class). -/
def isHexDigit (c : Char) : Bool :=
  (decide ('0' ≤ c) && decide (c ≤ '9')) ||
  (decide ('a' ≤ c) && decide (c ≤ 'f')) ||
  (decide ('A' ≤ c) && decide (c ≤ 'F'))

/-- `isHex` from paramChecker.ts: a string matching `/^[0-9a-fA-F]*$/` with
even length. -/
def isHexValue : JsValue → Bool
  | .str s => s.data.all isHexDigit && s.length % 2 = 0
  | _ => false

/-- `isPlutusData` from paramChecker.ts: integer, even-length hex string,
any array, or any plain object (both map-as-object and constructor shape). -/
def isPlutusData (x : JsValue) : Bool :=
  isIntegerValue x || isHexValue x ||
    (match x with
     | .arr _ => true
     | .obj _ => true
     | _ => false)

/-- `isRef` from paramChecker.ts: `x` is an object and `x.$ref` is a string.
Returns the reference string when so. -/
def refString (x : JsValue) : Option String :=
  match x with
  | .obj fs =>
    match lookupField fs "$ref" with
    | some (.str s) => some s
    | _ => none
  | _ => none

/-- `isEmpty` from paramChecker.ts: an object with no `$ref` key and no own
keys at all.  (An empty ARRAY also satisfies the JS test, since
`typeof [] === "object"` and `Object.keys([])` is empty.) -/
def isEmptySchemaNode : JsValue → Bool
  | .obj fs => !(fs.any (fun p => p.1 = "$ref")) && fs.isEmpty
  | .arr xs => xs.isEmpty
  | _ => false

/-- The key extracted by paramChecker.ts's `resolveRef` regex
`/^#\/definitions\/(.+)$/`: the remainder after the prefix, which must be
non-empty and (because `.` does not match line terminators) free of
newline-class characters. -/
def refKeyOf (ref : String) : Option String :=
  match ref.data with
  | '#' :: '/' :: 'd' :: 'e' :: 'f' :: 'i' :: 'n' :: 'i' :: 't' :: 'i' :: 'o' :: 'n' :: 's' :: '/' :: rest =>
    if rest ≠ [] &&
       rest.all (fun c => !(c = '\n' || c = '\r' || c = ' ' || c = ' ')) then
      some (String.mk rest)
    else none
  | _ => none

/-- `resolveRef` from paramChecker.ts: extract the key after
`#/definitions/` and look it up LITERALLY in the definitions table (no
`~1` decoding happens in the source). -/
def resolveRef (ref : String) (definitions : List (String × JsValue)) : Option JsValue :=
  (refKeyOf ref).bind (lookupField definitions)

/- ------------------------------------------------------------------
Value validator (paramChecker.ts `checkNode` / `checkInline`), with an
explicit fuel for the unbounded `$ref` recursion.
------------------------------------------------------------------ -/

/-- The `_R` result type of paramChecker.ts. -/
inductive CheckR where
  | ok
  | fail (message : String)
deriving Repr, DecidableEq, Inhabited

/-- `unitAccepts` configuration values. -/
inductive UnitAcc where
  | nul
  | emptyObject
  | both
deriving Repr, DecidableEq

/-- `mapAccepts` configuration values. -/
inductive MapAcc where
  | arrayTuples
  | object
  | both
deriving Repr, DecidableEq

/-- `Required<ParamCheckConfig>`. -/
structure CheckCfg where
  unitAccepts : UnitAcc
  mapAccepts : MapAcc
deriving Repr, DecidableEq

/-- `DEFAULT_CFG` from paramChecker.ts. -/
def DEFAULT_CFG : CheckCfg := ⟨UnitAcc.both, MapAcc.arrayTuples⟩

/-- Caller-supplied partial configuration (`ParamCheckConfig`). -/
structure CheckCfgOpt where
  unitAccepts : Option UnitAcc
  mapAccepts : Option MapAcc
deriving Repr, DecidableEq

/-- `{ ...DEFAULT_CFG, ...cfg }`. -/
def mergeCfg (c : CheckCfgOpt) : CheckCfg :=
  ⟨c.unitAccepts.getD DEFAULT_CFG.unitAccepts, c.mapAccepts.getD DEFAULT_CFG.mapAccepts⟩

abbrev Defs := List (String × JsValue)

/-- Homogeneous-list element loop of `checkInline` (`for i … checkNode(items, value[i])`).
`check` is the one-level-deeper checker. -/
def checkHomog (check : JsValue → JsValue → Option CheckR) (item : JsValue) :
    List JsValue → Nat → Option CheckR
  | [], _ => some .ok
  | v :: rest, i =>
    match check item v with
    | none => none
    | some .ok => checkHomog check item rest (i + 1)
    | some (.fail m) => some (.fail ("Element " ++ toString i ++ ": " ++ m))

/-- Inner alternative loop (`for (const alt of items) { … if (r.ok) break }`):
`some true` when some alternative accepts, `some false` when all fail. -/
def firstMatch (check : JsValue → JsValue → Option CheckR) (v : JsValue) :
    List JsValue → Option Bool
  | [] => some false
  | a :: rest =>
    match check a v with
    | none => none
    | some .ok => some true
    | some (.fail _) => firstMatch check v rest

/-- Alternation-list element loop of `checkInline`. -/
def checkAltElems (check : JsValue → JsValue → Option CheckR) (alts : List JsValue) :
    List JsValue → Nat → Option CheckR
  | [], _ => some .ok
  | v :: rest, i =>
    match firstMatch check v alts with
    | none => none
    | some true => checkAltElems check alts rest (i + 1)
    | some false => some (.fail ("Element " ++ toString i ++ ": no list alternative matched"))

/-- Map entry loop over array-of-tuples form. -/
def checkMapEntries (check : JsValue → JsValue → Option CheckR) (keysS valuesS : JsValue) :
    List JsValue → Nat → Option CheckR
  | [], _ => some .ok
  | e :: rest, i =>
    match e with
    | .arr [k, v] =>
      (match check keysS k with
       | none => none
       | some (.fail m) => some (.fail ("Entry " ++ toString i ++ " key: " ++ m))
       | some .ok =>
         match check valuesS v with
         | none => none
         | some (.fail m) => some (.fail ("Entry " ++ toString i ++ " value: " ++ m))
         | some .ok => checkMapEntries check keysS valuesS rest (i + 1))
    | _ => some (.fail ("Entry " ++ toString i ++ ": expected [key, value]"))

/-- Map entry loop over object form (`Object.entries`). -/
def checkMapObj (check : JsValue → JsValue → Option CheckR) (keysS valuesS : JsValue) :
    List (String × JsValue) → Option CheckR
  | [] => some .ok
  | (k, v) :: rest =>
    match check keysS (.str k) with
    | none => none
    | some (.fail m) => some (.fail ("Map key: " ++ m))
    | some .ok =>
      match check valuesS v with
      | none => none
      | some (.fail m) => some (.fail ("Map value for key \"" ++ k ++ "\": " ++ m))
      | some .ok => checkMapObj check keysS valuesS rest

/-- JS `===` on two values both known to be numbers. -/
def jsNumEq : JsValue → JsValue → Bool
  | .int a, .int b => a == b
  | .nonint a, .nonint b => a == b
  | _, _ => false

/-- `inline.anyOf.find(c => typeof c?.index === "number" && c.index === ctor)`. -/
def findAlt (ctorV : JsValue) : List JsValue → Option JsValue
  | [] => none
  | c :: rest =>
    match getField c "index" with
    | some (.int i) => if jsNumEq (.int i) ctorV then some c else findAlt ctorV rest
    | some (.nonint i) => if jsNumEq (.nonint i) ctorV then some c else findAlt ctorV rest
    | _ => findAlt ctorV rest

/-- Constructor field loop (`for i … checkNode(expected[i], fields[i])`);
only called with equal-length lists. -/
def checkFields (check : JsValue → JsValue → Option CheckR) :
    List JsValue → List JsValue → Nat → Option CheckR
  | _, [], _ => some .ok
  | [], _ :: _, _ => some .ok
  | e :: es, f :: fs, i =>
    match check e f with
    | none => none
    | some (.fail m) => some (.fail ("Field " ++ toString i ++ ": " ++ m))
    | some .ok => checkFields check es fs (i + 1)

/-- Printing of a JS number into a template literal.  Integral numbers print
exactly; the abstract non-integral atoms print with an injective marker. -/
def numToString : JsValue → String
  | .int n => toString n
  | .nonint id => "nonint#" ++ toString id
  | _ => ""

/-- `checkInline`'s `#list`/`list` body (the two branches of the source are
textually identical). -/
def listCheck (check : JsValue → JsValue → Option CheckR) (inline value : JsValue) :
    Option CheckR :=
  match value with
  | .arr elems =>
    (match getField inline "items" with
     | some (.arr alts) => checkAltElems check alts elems 0
     | some it => checkHomog check it elems 0
     | none => checkHomog check .undef elems 0)
  | _ => some (.fail "Expected array")

/-- `checkInline`'s `map` body. -/
def mapCheck (check : JsValue → JsValue → Option CheckR) (cfg : CheckCfg)
    (inline value : JsValue) : Option CheckR :=
  let keysS := (getField inline "keys").getD .undef
  let valuesS := (getField inline "values").getD .undef
  match value with
  | .arr entries => checkMapEntries check keysS valuesS entries 0
  | .obj fs =>
    if cfg.mapAccepts = .object || cfg.mapAccepts = .both then
      checkMapObj check keysS valuesS fs
    else some (.fail "Expected map")
  | _ => some (.fail "Expected map")

/-- The `expected` local of the constructor branch
(`Array.isArray(alt?.fields) ? alt.fields : []`). -/
def altFields (alt : JsValue) : List JsValue :=
  match getField alt "fields" with
  | some (.arr fs) => fs
  | _ => []

/-- The integral `index` of an alternative, when it has one (the shape
`findAlt` matches against for an integer constructor tag). -/
def altIndex (a : JsValue) : Option Int :=
  match getField a "index" with
  | some (.int i) => some i
  | _ => none

/-- `checkInline`'s constructor (`anyOf`) body. -/
def ctorCheck (check : JsValue → JsValue → Option CheckR) (alts : List JsValue)
    (value : JsValue) : Option CheckR :=
  let ctorOk :=
    isPlainObject value &&
      (match getField value "constructor" with
       | some (.int _) => true
       | some (.nonint _) => true
       | _ => false) &&
      (match getField value "fields" with
       | some (.arr _) => true
       | _ => false)
  if ctorOk then
    match getField value "constructor", getField value "fields" with
    | some ctorV, some (.arr fieldVals) =>
      (match findAlt ctorV alts with
       | none => some (.fail ("No constructor with index " ++ numToString ctorV))
       | some alt =>
         let expected := altFields alt
         if fieldVals.length ≠ expected.length then
           some (.fail ("Constructor " ++ numToString ctorV ++ " expected " ++
             toString expected.length ++ " field(s)"))
         else checkFields check expected fieldVals 0)
    | _, _ => some (.fail "Expected \x7b constructor: number, fields: any[] \x7d")
  else some (.fail "Expected \x7b constructor: number, fields: any[] \x7d")

/-- The `anyOf` fallthrough of `checkInline` (constructor nodes, and the
"Unsupported schema node" failure). -/
def anyOfBranchF (check : JsValue → JsValue → Option CheckR)
    (inline value : JsValue) : Option CheckR :=
  match getField inline "anyOf" with
  | some (.arr alts) => ctorCheck check alts value
  | _ => some (.fail "Unsupported schema node")

/-- `checkInline` from paramChecker.ts, parameterised by the one-level-deeper
checker `check`. -/
def checkInline (check : JsValue → JsValue → Option CheckR) (cfg : CheckCfg)
    (inline value : JsValue) : Option CheckR :=
  let anyOfBranch : Option CheckR := anyOfBranchF check inline value
  match getField inline "dataType" with
  | some (.str dt) =>
    if startsWithHash dt then
      match dt with
      | "#integer" =>
        if isIntegerValue value then some .ok else some (.fail "Expected integer")
      | "#bytes" =>
        if isHexValue value then some .ok else some (.fail "Expected hex string")
      | "#string" =>
        (match value with
         | .str _ => some .ok
         | _ => some (.fail "Expected string"))
      | "#boolean" =>
        (match value with
         | .bool _ => some .ok
         | _ => some (.fail "Expected boolean"))
      | "#unit" =>
        if (cfg.unitAccepts = .nul || cfg.unitAccepts = .both) && isNullV value then
          some .ok
        else if (cfg.unitAccepts = .emptyObject || cfg.unitAccepts = .both) &&
            isEmptyObject value then
          some .ok
        else some (.fail "Expected unit (null or \x7b\x7d)")
      | "#list" => listCheck check inline value
      | "#pair" =>
        (match value with
         | .arr [l, r] =>
           (match check ((getField inline "left").getD .undef) l with
            | none => none
            | some (.fail m) => some (.fail ("left: " ++ m))
            | some .ok =>
              match check ((getField inline "right").getD .undef) r with
              | none => none
              | some (.fail m) => some (.fail ("right: " ++ m))
              | some .ok => some .ok)
         | _ => some (.fail "Expected [left, right]"))
      | _ => some (.fail ("Unsupported dataType: " ++ dt))
    else if dt = "integer" then
      if isIntegerValue value then some .ok else some (.fail "Expected integer")
    else if dt = "bytes" then
      if isHexValue value then some .ok else some (.fail "Expected hex string")
    else if dt = "list" then listCheck check inline value
    else if dt = "map" then mapCheck check cfg inline value
    else anyOfBranch
  | _ => anyOfBranch

/-- One unfolding of `checkNode` from paramChecker.ts, with `check` standing
for the recursive occurrence. -/
def checkStep (defs : Defs) (cfg : CheckCfg) (check : JsValue → JsValue → Option CheckR)
    (node value : JsValue) : Option CheckR :=
  match refString node with
  | some ref =>
    (match resolveRef ref defs with
     | none => some (.fail ("Unresolved $ref: " ++ ref))
     | some resolved => check resolved value)
  | none =>
    if isEmptySchemaNode node then
      if isPlutusData value then some .ok else some (.fail "Expected valid Plutus Data")
    else checkInline check cfg node value

/-- `checkNode` from paramChecker.ts.  The fuel bounds call-stack depth; a
`none` result means the JS recursion would exceed that depth.  (Defined via
`Nat.rec` so that concrete runs reduce definitionally.) -/
def checkNodeF (defs : Defs) (cfg : CheckCfg) (fuel : Nat) :
    JsValue → JsValue → Option CheckR :=
  Nat.rec (motive := fun _ => JsValue → JsValue → Option CheckR)
    (fun _ _ => none)
    (fun _ ih => checkStep defs cfg ih)
    fuel

theorem checkNodeF_zero (defs : Defs) (cfg : CheckCfg) (node value : JsValue) :
    checkNodeF defs cfg 0 node value = none := rfl

theorem checkNodeF_succ (defs : Defs) (cfg : CheckCfg) (n : Nat) (node value : JsValue) :
    checkNodeF defs cfg (n + 1) node value =
      checkStep defs cfg (checkNodeF defs cfg n) node value := rfl

/-- `validateParameterValue` from paramChecker.ts (fuelled). -/
def validateParameterValueF (fuel : Nat) (schema value : JsValue)
    (definitions : Option Defs) (cfg : CheckCfgOpt) : Option CheckR :=
  checkNodeF (definitions.getD []) (mergeCfg cfg) fuel schema value

/- ------------------------------------------------------------------
String helpers shared by validatePlutusJson.ts and the grouping pass.
All are written over `String.data` so that concrete runs reduce.
------------------------------------------------------------------ -/

/-- Whitespace trimmed by `String.prototype.trim` (the common ASCII set; the
titles involved never contain the exotic Unicode space characters). -/
def isJsSpace (c : Char) : Bool :=
  c = ' ' || c = '\t' || c = '\n' || c = '\r' || c = '\x0b' || c = '\x0c'

/-- `title.trim()`. -/
def jsTrim (s : String) : String :=
  String.mk (((s.data.dropWhile isJsSpace).reverse.dropWhile isJsSpace).reverse)

/-- `str.split(sep)` for a one-character separator. -/
def splitOnCharL (sep : Char) : List Char → List (List Char)
  | [] => [[]]
  | c :: rest =>
    let r := splitOnCharL sep rest
    if c = sep then [] :: r
    else
      match r with
      | h :: t => (c :: h) :: t
      | [] => [[c]]

/-- `title.split(".")`. -/
def splitDot (s : String) : List String := (splitOnCharL '.' s.data).map String.mk

/-- `parts.join(".")`. -/
def joinDot : List String → String
  | [] => ""
  | [s] => s
  | s :: rest => s ++ "." ++ joinDot rest

/-- `s.endsWith(".else")` (char-list form). -/
def endsWithDotElse (s : String) : Bool :=
  decide (s.data.reverse.take 5 = ['e', 's', 'l', 'e', '.'])

/- ------------------------------------------------------------------
Structural validator: the AST produced by `AikenPlutusJsonSchema.safeParse`
and a model of its zod validation semantics (AikenPlutusJsonSchema.ts).
------------------------------------------------------------------ -/

/-- Parsed preamble (declared fields; `.passthrough()` extras are dropped
from the typed view). -/
structure PreambleAst where
  title : String
  version : String
  plutusVersion : String
  compilerName : String
  compilerVersion : String
  description : Option String
  license : Option String
deriving Repr, DecidableEq, Inhabited

/-- Parsed `Parameter` (`{ title, schema }`).  The parsed schema value is the
input JSON node itself (all three union branches return it unchanged). -/
structure ParamAst where
  title : String
  schema : JsValue
deriving Repr, Inhabited

/-- Parsed `DatumOrRedeemer`. -/
structure DatumAst where
  title : Option String
  schema : JsValue
deriving Repr, Inhabited

/-- Parsed `Validator` (strip mode: unknown keys are dropped silently). -/
structure ValidatorAst where
  title : String
  datum : Option DatumAst
  redeemer : Option DatumAst
  parameters : Option (List ParamAst)
  compiledCode : Option String
  hash : Option String
deriving Repr, Inhabited

/-- Parsed blueprint document. -/
structure BlueprintAst where
  preamble : PreambleAst
  validators : List ValidatorAst
  definitions : Option (List (String × JsValue))
deriving Repr, Inhabited

/-- A zod issue path segment (string key or array index). -/
inductive PathSeg where
  | key (s : String)
  | idx (n : Nat)
deriving Repr, DecidableEq

/-- A zod issue (path + machine-readable code + message). -/
structure Issue where
  path : List PathSeg
  code : String
  message : String
deriving Repr, DecidableEq

/-- Issue-collecting conjunction (zod reports the issues of both subparses). -/
def vand {α β : Type} : Except (List Issue) α → Except (List Issue) β →
    Except (List Issue) (α × β)
  | .ok a, .ok b => .ok (a, b)
  | .error e, .ok _ => .error e
  | .ok _, .error e => .error e
  | .error e₁, .error e₂ => .error (e₁ ++ e₂)

/-- Prepend extra issues (used for `.strict()` unknown-key reports). -/
def addIssues {α : Type} (iss : List Issue) : Except (List Issue) α → Except (List Issue) α
  | e =>
    if iss.isEmpty then e
    else
      match e with
      | .ok _ => .error iss
      | .error es => .error (iss ++ es)

/-- Field access as zod sees it: a property whose value is `undefined`
counts as absent for required/optional field checks. -/
def objFieldP (fs : List (String × JsValue)) (k : String) : Option JsValue :=
  match lookupField fs k with
  | some .undef => none
  | o => o

/-- `z.string()` at a required object field. -/
def parseRequiredString (path : List PathSeg) (fs : List (String × JsValue)) (k : String) :
    Except (List Issue) String :=
  match objFieldP fs k with
  | some (.str s) => .ok s
  | some _ => .error [⟨path ++ [.key k], "invalid_type", "Expected string"⟩]
  | none => .error [⟨path ++ [.key k], "invalid_type", "Required"⟩]

/-- `z.string().optional()` at an object field. -/
def parseOptionalString (path : List PathSeg) (fs : List (String × JsValue)) (k : String) :
    Except (List Issue) (Option String) :=
  match objFieldP fs k with
  | none => .ok none
  | some (.str s) => .ok (some s)
  | some _ => .error [⟨path ++ [.key k], "invalid_type", "Expected string"⟩]

/-- The preamble object schema (`.passthrough()`: unknown keys tolerated). -/
def parsePreamble (path : List PathSeg) (v : JsValue) : Except (List Issue) PreambleAst :=
  match v with
  | .obj fs =>
    let pPlutus : Except (List Issue) String :=
      match objFieldP fs "plutusVersion" with
      | some (.str s) =>
        if s = "v1" || s = "v2" || s = "v3" then .ok s
        else .error [⟨path ++ [.key "plutusVersion"], "invalid_enum_value", "Invalid enum value"⟩]
      | some _ => .error [⟨path ++ [.key "plutusVersion"], "invalid_type", "Expected string"⟩]
      | none => .error [⟨path ++ [.key "plutusVersion"], "invalid_type", "Required"⟩]
    let pCompiler : Except (List Issue) (String × String) :=
      match objFieldP fs "compiler" with
      | some (.obj cfs) =>
        vand (parseRequiredString (path ++ [.key "compiler"]) cfs "name")
          (parseRequiredString (path ++ [.key "compiler"]) cfs "version")
      | some _ => .error [⟨path ++ [.key "compiler"], "invalid_type", "Expected object"⟩]
      | none => .error [⟨path ++ [.key "compiler"], "invalid_type", "Required"⟩]
    match vand (vand (parseRequiredString path fs "title") (parseRequiredString path fs "version"))
        (vand (vand pPlutus pCompiler)
          (vand (parseOptionalString path fs "description") (parseOptionalString path fs "license"))) with
    | .ok ⟨⟨t, ver⟩, ⟨⟨pv, ⟨cn, cv⟩⟩, ⟨d, l⟩⟩⟩ => .ok ⟨t, ver, pv, cn, cv, d, l⟩
    | .error e => .error e
  | _ => .error [⟨path, "invalid_type", "Expected object"⟩]

/-- `/^[0-9a-fA-F]+$/` with even length (`isEvenLengthHex`). -/
def isEvenLengthHexS (s : String) : Bool :=
  !s.data.isEmpty && s.data.all isHexDigit && s.length % 2 = 0

/-- Numeric value of a hex digit (`parseInt` semantics on hex chars). -/
def hexDigitVal (c : Char) : Nat :=
  if '0' ≤ c && c ≤ '9' then c.toNat - 48
  else if 'a' ≤ c && c ≤ 'f' then c.toNat - 87
  else if 'A' ≤ c && c ≤ 'F' then c.toNat - 55
  else 0

/-- `looksLikeCborByteString`: whole string hex, length ≥ 2, first byte in
`0x40..0x5F`. -/
def looksLikeCborS (s : String) : Bool :=
  match s.data with
  | c₁ :: c₂ :: _ =>
    s.data.all isHexDigit &&
      (let b := hexDigitVal c₁ * 16 + hexDigitVal c₂
       decide (0x40 ≤ b) && decide (b ≤ 0x5f))
  | _ => false

/-- The `compiledCode` string schema with its three checks (`min(1)` and two
`.refine`s); zod collects all failing checks. -/
def parseCompiledCode (path : List PathSeg) (fs : List (String × JsValue)) :
    Except (List Issue) (Option String) :=
  match objFieldP fs "compiledCode" with
  | none => .ok none
  | some (.str s) =>
    let p := path ++ [.key "compiledCode"]
    let iss : List Issue :=
      (if s.length ≥ 1 then [] else [⟨p, "too_small", "compiledCode cannot be empty"⟩]) ++
      (if isEvenLengthHexS s then [] else
        [⟨p, "custom", "compiledCode must be hex with even length"⟩]) ++
      (if looksLikeCborS s then [] else
        [⟨p, "custom", "compiledCode should be a CBOR byte-string (starts 0x40–0x5F)"⟩])
    if iss.isEmpty then .ok (some s) else .error iss
  | some _ => .error [⟨path ++ [.key "compiledCode"], "invalid_type", "Expected string"⟩]

/-- The `hash` schema (`/^[0-9a-fA-F]{56}$/`). -/
def parseHash (path : List PathSeg) (fs : List (String × JsValue)) :
    Except (List Issue) (Option String) :=
  match objFieldP fs "hash" with
  | none => .ok none
  | some (.str s) =>
    if s.data.all isHexDigit && s.length = 56 then .ok (some s)
    else .error [⟨path ++ [.key "hash"], "invalid_string", "hash must be 56 hex chars (blake2b-224)"⟩]
  | some _ => .error [⟨path ++ [.key "hash"], "invalid_type", "Expected string"⟩]

/-- The `Annotatable` wrapper: an object whose `title`/`description`, when
present, are strings (`.passthrough()` otherwise). -/
def annotatableOk (fs : List (String × JsValue)) : Bool :=
  (match objFieldP fs "title" with
   | none => true
   | some (.str _) => true
   | some _ => false) &&
  (match objFieldP fs "description" with
   | none => true
   | some (.str _) => true
   | some _ => false)

/-- `RefOnly` (`z.object({ $ref: z.string() }).strict()`). -/
def refOnlyOk (fs : List (String × JsValue)) : Bool :=
  (match objFieldP fs "$ref" with
   | some (.str _) => true
   | _ => false) &&
  fs.all (fun p => p.1 = "$ref")

/-- `InlineSchema`/`TypeDef` acceptance.  The first union branch inside
`InlineData` is `z.object({}).strict().passthrough()` whose later
`.passthrough()` overrides `.strict()`, so it accepts every object; the whole
intersection therefore reduces to the `Annotatable` requirement. -/
def schemaInlineOk (v : JsValue) : Bool :=
  match v with
  | .obj fs => annotatableOk fs
  | _ => false

/-- `SchemaRefOrInlineOrEmpty` (union of `RefOnly`, `EmptySchema`, `TypeDef`).
Note that non-empty ARRAYS are rejected: zod object schemas refuse arrays. -/
def schemaDeclOk (v : JsValue) : Bool :=
  match v with
  | .obj fs => refOnlyOk fs || fs.isEmpty || annotatableOk fs
  | _ => false

/-- Parse a schema position; all three union branches return the input node
unchanged, so the parsed value is the node itself. -/
def parseSchemaDecl (path : List PathSeg) (v : JsValue) : Except (List Issue) JsValue :=
  if schemaDeclOk v then .ok v else .error [⟨path, "invalid_union", "Invalid input"⟩]

/-- `DatumOrRedeemer` (`.strict()`). -/
def parseDatum (path : List PathSeg) (v : JsValue) : Except (List Issue) DatumAst :=
  match v with
  | .obj fs =>
    let unk := fs.filter (fun p => !(p.1 = "title" || p.1 = "schema"))
    let strictIss : List Issue :=
      if unk.isEmpty then [] else [⟨path, "unrecognized_keys", "Unrecognized key(s) in object"⟩]
    let ps : Except (List Issue) JsValue :=
      match objFieldP fs "schema" with
      | some sv => parseSchemaDecl (path ++ [.key "schema"]) sv
      | none => .error [⟨path ++ [.key "schema"], "invalid_type", "Required"⟩]
    addIssues strictIss
      (match vand (parseOptionalString path fs "title") ps with
       | .ok ⟨t, sv⟩ => .ok ⟨t, sv⟩
       | .error e => .error e)
  | _ => .error [⟨path, "invalid_type", "Expected object"⟩]

/-- `Parameter` (`.strict()`, required title). -/
def parseParameter (path : List PathSeg) (v : JsValue) : Except (List Issue) ParamAst :=
  match v with
  | .obj fs =>
    let unk := fs.filter (fun p => !(p.1 = "title" || p.1 = "schema"))
    let strictIss : List Issue :=
      if unk.isEmpty then [] else [⟨path, "unrecognized_keys", "Unrecognized key(s) in object"⟩]
    let ps : Except (List Issue) JsValue :=
      match objFieldP fs "schema" with
      | some sv => parseSchemaDecl (path ++ [.key "schema"]) sv
      | none => .error [⟨path ++ [.key "schema"], "invalid_type", "Required"⟩]
    addIssues strictIss
      (match vand (parseRequiredString path fs "title") ps with
       | .ok ⟨t, sv⟩ => .ok ⟨t, sv⟩
       | .error e => .error e)
  | _ => .error [⟨path, "invalid_type", "Expected object"⟩]

/-- Parse every element of an array, collecting all issues (zod semantics). -/
def parseListWith {α : Type} (p : Nat → JsValue → Except (List Issue) α) :
    List JsValue → Nat → Except (List Issue) (List α)
  | [], _ => .ok []
  | x :: rest, i =>
    match p i x, parseListWith p rest (i + 1) with
    | .ok a, .ok as => .ok (a :: as)
    | .error e, .ok _ => .error e
    | .ok _, .error e => .error e
    | .error e₁, .error e₂ => .error (e₁ ++ e₂)

/-- The `Validator` object schema (default strip mode) plus its
`superRefine` rule; the refinement runs only when the base parse succeeds. -/
def parseValidator (path : List PathSeg) (v : JsValue) : Except (List Issue) ValidatorAst :=
  match v with
  | .obj fs =>
    let pDatum : Except (List Issue) (Option DatumAst) :=
      match objFieldP fs "datum" with
      | none => .ok none
      | some dv => (parseDatum (path ++ [.key "datum"]) dv).map some
    let pRedeemer : Except (List Issue) (Option DatumAst) :=
      match objFieldP fs "redeemer" with
      | none => .ok none
      | some dv => (parseDatum (path ++ [.key "redeemer"]) dv).map some
    let pParams : Except (List Issue) (Option (List ParamAst)) :=
      match objFieldP fs "parameters" with
      | none => .ok none
      | some (.arr xs) =>
        (parseListWith (fun i x => parseParameter (path ++ [.key "parameters", .idx i]) x) xs 0).map some
      | some _ => .error [⟨path ++ [.key "parameters"], "invalid_type", "Expected array"⟩]
    match vand (vand (parseRequiredString path fs "title") (vand pDatum pRedeemer))
        (vand pParams (vand (parseCompiledCode path fs) (parseHash path fs))) with
    | .ok ⟨⟨t, ⟨d, r⟩⟩, ⟨ps, ⟨cc, h⟩⟩⟩ =>
      let isElse := endsWithDotElse (jsTrim t)
      if !isElse then
        if cc.isNone then
          .error [⟨path ++ [.key "compiledCode"], "custom", "compiledCode is required (non-.else validator)"⟩]
        else .ok ⟨t, d, r, ps, cc, h⟩
      else
        if cc.isNone && h.isNone then
          .error [⟨path ++ [.key "hash"], "custom", "For .else validators, provide compiledCode or hash"⟩]
        else .ok ⟨t, d, r, ps, cc, h⟩
    | .error e => .error e
  | _ => .error [⟨path, "invalid_type", "Expected object"⟩]

/-- `z.record(TypeDef)` for the definitions table. -/
def parseDefinitions (path : List PathSeg) (v : JsValue) :
    Except (List Issue) (List (String × JsValue)) :=
  match v with
  | .obj fs =>
    fs.foldr
      (fun kv acc =>
        let this : Except (List Issue) (String × JsValue) :=
          if schemaInlineOk kv.2 then .ok kv
          else .error [⟨path ++ [.key kv.1], "invalid_union", "Invalid input"⟩]
        match vand this acc with
        | .ok ⟨p, rest⟩ => .ok (p :: rest)
        | .error e => .error e)
      (.ok [])
  | _ => .error [⟨path, "invalid_type", "Expected object"⟩]

/-- `AikenPlutusJsonSchema.safeParse` (the whole-document `.strict()` object). -/
def structParse (v : JsValue) : Except (List Issue) BlueprintAst :=
  match v with
  | .obj fs =>
    let unk := fs.filter (fun p => !(p.1 = "preamble" || p.1 = "validators" || p.1 = "definitions"))
    let strictIss : List Issue :=
      if unk.isEmpty then [] else [⟨[], "unrecognized_keys", "Unrecognized key(s) in object"⟩]
    let pPre : Except (List Issue) PreambleAst :=
      match objFieldP fs "preamble" with
      | some pv => parsePreamble [.key "preamble"] pv
      | none => .error [⟨[.key "preamble"], "invalid_type", "Required"⟩]
    let pVals : Except (List Issue) (List ValidatorAst) :=
      match objFieldP fs "validators" with
      | some (.arr xs) =>
        addIssues
          (if xs.isEmpty then
            [⟨[.key "validators"], "too_small", "Array must contain at least 1 element(s)"⟩]
          else [])
          (parseListWith (fun i x => parseValidator [.key "validators", .idx i] x) xs 0)
      | some _ => .error [⟨[.key "validators"], "invalid_type", "Expected array"⟩]
      | none => .error [⟨[.key "validators"], "invalid_type", "Required"⟩]
    let pDefs : Except (List Issue) (Option (List (String × JsValue))) :=
      match objFieldP fs "definitions" with
      | none => .ok none
      | some dv => (parseDefinitions [.key "definitions"] dv).map some
    addIssues strictIss
      (match vand pPre (vand pVals pDefs) with
       | .ok ⟨pre, ⟨vs, ds⟩⟩ => .ok ⟨pre, vs, ds⟩
       | .error e => .error e)
  | _ => .error [⟨[], "invalid_type", "Expected object"⟩]

/- ------------------------------------------------------------------
validatePlutusJson.ts: path formatting, equality guards, wrapper.
------------------------------------------------------------------ -/

/-- `String(seg)`. -/
def pathSegString : PathSeg → String
  | .key s => s
  | .idx n => toString n

/-- One formatted part of `formatPathUsingTitles`: a validator index whose
previous segment is `"validators"` is replaced by that validator's own title
(falling back to `validators[i]` when the title is missing or empty, since
`title || …` treats the empty string as falsy). -/
def fmtPathParts (root : JsValue) : List PathSeg → Option PathSeg → List String
  | [], _ => []
  | seg :: rest, prev =>
    let part :=
      match seg, prev with
      | .idx n, some (.key "validators") =>
        (match getField root "validators" with
         | some (.arr vs) =>
           (match vs.get? n with
            | some vv =>
              (match getField vv "title" with
               | some (.str t) => if t = "" then "validators[" ++ toString n ++ "]" else t
               | _ => "validators[" ++ toString n ++ "]")
            | none => "validators[" ++ toString n ++ "]")
         | _ => "validators[" ++ toString n ++ "]")
      | _, _ => pathSegString seg
    part :: fmtPathParts root rest (some seg)

/-- `formatPathUsingTitles` from validatePlutusJson.ts. -/
def formatPathUsingTitles (pathArr : List PathSeg) (root : JsValue) : String :=
  match pathArr with
  | [] => ""
  | _ => joinDot (fmtPathParts root pathArr none)

/-- `PURPOSES` from validatePlutusJson.ts (and the grouping pass). -/
def PURPOSES : List String := ["spend", "mint", "withdraw", "publish", "vote", "propose"]

/-- Result of `splitBaseAndPurpose`. -/
structure SplitR where
  base : String
  purpose : Option String
  isElse : Bool
deriving Repr, DecidableEq

/-- `splitBaseAndPurpose`: split the trimmed dotted title at its last
segment. -/
def splitBaseAndPurpose (title : String) : SplitR :=
  let t := jsTrim title
  let parts := splitDot t
  let last := (parts.getLast?).getD ""
  if last = "else" then ⟨joinDot parts.dropLast, none, true⟩
  else if PURPOSES.contains last then ⟨joinDot parts.dropLast, some last, false⟩
  else ⟨t, none, false⟩

/- `sortKeysDeep` and `JSON.stringify` (for `stableParamKey`). -/

/-- `Object.keys(x).sort()` applied to the field list (keys are unique, so
sorting pairs by key is the same as sorting the keys). -/
def sortPairsByKey (fs : List (String × JsValue)) : List (String × JsValue) :=
  List.insertionSort (fun a b => a.1 ≤ b.1) fs

/-- `sortKeysDeep` from validatePlutusJson.ts.  (The source sorts the keys
and then maps the values; since the comparator looks only at keys, sorting
the already-mapped pairs is the same function.) -/
def sortKeysDeep : JsValue → JsValue
  | .arr xs => .arr (xs.attach.map (fun ⟨x, _h⟩ => sortKeysDeep x))
  | .obj fs => .obj (sortPairsByKey (fs.attach.map (fun ⟨⟨k, v⟩, _h⟩ => (k, sortKeysDeep v))))
  | x => x
termination_by v => sizeOf v
decreasing_by
  · have := List.sizeOf_lt_of_mem _h
    simp only [JsValue.arr.sizeOf_spec]
    omega
  · have := List.sizeOf_lt_of_mem _h
    simp only [Prod.mk.sizeOf_spec] at this
    simp only [JsValue.obj.sizeOf_spec]
    omega

/-- Two lowercase hex chars of a byte (`b.toString(16).padStart(2, "0")`). -/
def hexDigitChar (n : Nat) : Char :=
  if n < 10 then Char.ofNat (48 + n) else Char.ofNat (87 + n)

/-- JSON string escaping as performed by `JSON.stringify`. -/
def escapeJsonChar (c : Char) : List Char :=
  if c = '"' then ['\\', '"']
  else if c = '\\' then ['\\', '\\']
  else if c = '\n' then ['\\', 'n']
  else if c = '\r' then ['\\', 'r']
  else if c = '\t' then ['\\', 't']
  else if c = '\x08' then ['\\', 'b']
  else if c = '\x0c' then ['\\', 'f']
  else if c.toNat < 32 then
    ['\\', 'u', '0', '0', hexDigitChar (c.toNat / 16), hexDigitChar (c.toNat % 16)]
  else [c]

/-- `JSON.stringify` of a string. -/
def jsonQuote (s : String) : String :=
  "\"" ++ String.mk (s.data.foldr (fun c acc => escapeJsonChar c ++ acc) []) ++ "\""

/-- `parts.join(",")`. -/
def joinComma : List String → String
  | [] => ""
  | [s] => s
  | s :: rest => s ++ "," ++ joinComma rest

/-- `JSON.stringify`.  `none` models the `undefined` result (functions and
`undefined` at top level).  The abstract non-integral atoms print with an
injective marker; BigInt (on which the real `JSON.stringify` throws) cannot
occur in parsed-JSON inputs. -/
def stringifyVal : JsValue → Option String
  | .int n => some (toString n)
  | .nonint id => some ("nonint#" ++ toString id)
  | .big n => some (toString n)
  | .str s => some (jsonQuote s)
  | .bool b => some (cond b "true" "false")
  | .null => some "null"
  | .undef => none
  | .fn _ => none
  | .arr xs =>
    some ("[" ++ joinComma (xs.attach.map (fun ⟨x, _h⟩ => (stringifyVal x).getD "null")) ++ "]")
  | .obj fs =>
    some ("\x7b" ++
      joinComma (fs.attach.filterMap
        (fun ⟨⟨k, v⟩, _h⟩ => (stringifyVal v).map (fun sv => jsonQuote k ++ ":" ++ sv))) ++
      "\x7d")
termination_by v => sizeOf v
decreasing_by
  · have := List.sizeOf_lt_of_mem _h
    simp only [JsValue.arr.sizeOf_spec]
    omega
  · have := List.sizeOf_lt_of_mem _h
    simp only [Prod.mk.sizeOf_spec] at this
    simp only [JsValue.obj.sizeOf_spec]
    omega

/-- `stableParamKey`: canonical JSON of `{ name, schema }` with sorted keys. -/
def stableParamKey (p : ParamAst) : String :=
  (stringifyVal (sortKeysDeep (.obj [("name", .str p.title), ("schema", p.schema)]))).getD ""

/-- `sameParamSets`: compare the sorted lists of canonical keys. -/
def sameParamSets (a b : Option (List ParamAst)) : Bool :=
  let A := List.insertionSort (fun x y : String => x ≤ y) ((a.getD []).map stableParamKey)
  let B := List.insertionSort (fun x y : String => x ≤ y) ((b.getD []).map stableParamKey)
  A == B

/-- A formatted validation error (`{ path, message, code }`). -/
structure VError where
  path : String
  message : String
  code : String
deriving Repr, DecidableEq

/-- Ordered-map upsert with push, modelling `groups.get(base) ?? …;
g.items.push(…); groups.set(base, g)` on a JS `Map` (insertion order). -/
def upsertAppend {α : Type} : List (String × List α) → String → α → List (String × List α)
  | [], k, x => [(k, [x])]
  | (k', xs) :: rest, k, x =>
    if k' = k then (k', xs ++ [x]) :: rest else (k', xs) :: upsertAppend rest k x

/-- The grouping loop of `equalityGuards`: group indexed validators by base,
skipping `.else` and unrecognized-suffix entries. -/
def groupByBase (vs : List (Nat × ValidatorAst)) : List (String × List (Nat × ValidatorAst)) :=
  vs.foldl
    (fun acc p =>
      let sp := splitBaseAndPurpose p.2.title
      match sp.purpose with
      | none => acc
      | some _ => upsertAppend acc sp.base p)
    []

/-- Message of an equality-guard violation. -/
def egMessage (field base : String) : String :=
  field ++ " must be identical across purposes for \"" ++ base ++ "\""

/-- The three per-entry comparisons of `equalityGuards` against the first
entry of the base. -/
def perItemErrors (raw : JsValue) (base : String) (refv : ValidatorAst)
    (it : Nat × ValidatorAst) : List VError :=
  (if refv.compiledCode ≠ it.2.compiledCode then
    [⟨formatPathUsingTitles [.key "validators", .idx it.1, .key "compiledCode"] raw,
      egMessage "compiledCode" base, "EQUALITY_GUARD"⟩]
  else []) ++
  (if refv.hash ≠ it.2.hash then
    [⟨formatPathUsingTitles [.key "validators", .idx it.1, .key "hash"] raw,
      egMessage "hash" base, "EQUALITY_GUARD"⟩]
  else []) ++
  (if !sameParamSets refv.parameters it.2.parameters then
    [⟨formatPathUsingTitles [.key "validators", .idx it.1, .key "parameters"] raw,
      egMessage "parameters" base, "EQUALITY_GUARD"⟩]
  else [])

/-- `equalityGuards` from validatePlutusJson.ts. -/
def equalityGuards (ast : BlueprintAst) (rawForPaths : JsValue) : List VError :=
  let groups := groupByBase ast.validators.enum
  (groups.map
    (fun g =>
      match g.2 with
      | [] => []
      | [_] => []
      | first :: rest => (rest.map (perItemErrors rawForPaths g.1 first.2)).flatten)).flatten

/-- Result of `validateAikenBlueprint`. -/
inductive VResult where
  | ok (ast : BlueprintAst)
  | err (errors : List VError)
deriving Repr

/-- The error list carried by a result (`ok` carries none). -/
def errorsOf : VResult → List VError
  | .ok _ => []
  | .err es => es

/-- `validateAikenBlueprint` from validatePlutusJson.ts, on an
already-parsed JSON value.  (The `typeof input === "string"` JSON.parse
front door and its JSON_PARSE error are outside this model.)  On structural
failure the zod issues are formatted and returned; only on structural
success do the equality guards run. -/
def validateAikenBlueprint (json : JsValue) : VResult :=
  match structParse json with
  | .error issues =>
    .err (issues.map (fun i => ⟨formatPathUsingTitles i.path json, i.message, i.code⟩))
  | .ok ast =>
    let eg := equalityGuards ast json
    if eg.isEmpty then .ok ast else .err eg

/- ------------------------------------------------------------------
Grouping pass (parseAikenBlueprintStrict and its helpers).
------------------------------------------------------------------ -/

/-- Every `JsValue` has positive size. -/
theorem one_le_sizeOf (v : JsValue) : 1 ≤ sizeOf v := by
  cases v <;> simp <;> omega

/-- A successful first-match lookup is a member of the list. -/
theorem lookupField_mem {fs : List (String × JsValue)} {k : String} {w : JsValue}
    (h : lookupField fs k = some w) : (k, w) ∈ fs := by
  induction fs with
  | nil => simp [lookupField] at h
  | cons p rest ih =>
    rw [show p = (p.1, p.2) from rfl] at h ⊢
    rw [lookupField] at h
    by_cases hk : p.1 = k
    · simp only [hk, if_pos rfl] at h
      cases h
      subst hk
      exact List.mem_cons_self _ _
    · simp only [if_neg hk] at h
      exact List.mem_cons_of_mem _ (ih h)

/-- A field's value is smaller than the object carrying it. -/
theorem sizeOf_getField_lt {v : JsValue} {k : String} {w : JsValue}
    (h : getField v k = some w) : sizeOf w < sizeOf v := by
  cases v <;> simp only [getField] at h <;> try exact absurd h (by simp)
  case obj fs =>
    have hm := lookupField_mem h
    have hlt := List.sizeOf_lt_of_mem hm
    simp only [Prod.mk.sizeOf_spec] at hlt
    simp only [JsValue.obj.sizeOf_spec]
    omega

/-- `(getField node k).getD undef` is smaller than `node` whenever `node` has
at least one field (witnessed by any successful `getField`). -/
theorem sizeOf_getFieldD_lt {node : JsValue} {k k' : String} {w : JsValue}
    (h : getField node k' = some w) :
    sizeOf ((getField node k).getD JsValue.undef) < sizeOf node := by
  cases hk : getField node k with
  | some u =>
    simpa [Option.getD] using sizeOf_getField_lt hk
  | none =>
    have h₁ := sizeOf_getField_lt h
    have h₂ := one_le_sizeOf w
    simp only [Option.getD]
    simp only [JsValue.undef.sizeOf_spec]
    omega

/-- JS falsiness (for `if (!node)` and `schema?.$ref`); the only falsy JS
values are `undefined`, `null`, `false`, `0`, `0n`, `""` and `NaN`
(the last is not representable here). -/
def jsFalsy : JsValue → Bool
  | .undef => true
  | .null => true
  | .bool false => true
  | .int 0 => true
  | .big 0 => true
  | .str "" => true
  | _ => false

/-- JS truthiness. -/
def jsTruthy (v : JsValue) : Bool := !jsFalsy v

/-- `typeof node === "object" && node && Object.keys(node).length === 0`. -/
def objKeysEmpty : JsValue → Bool
  | .obj [] => true
  | .arr [] => true
  | _ => false

/-- `dt.slice(1)`. -/
def strTail (s : String) : String :=
  match s.data with
  | [] => ""
  | _ :: r => String.mk r

/-- `opts.join(" | ")`. -/
def joinBarSp : List String → String
  | [] => ""
  | [s] => s
  | s :: rest => s ++ " | " ++ joinBarSp rest

/-- `fields.join(", ")`. -/
def joinCommaSp : List String → String
  | [] => ""
  | [s] => s
  | s :: rest => s ++ ", " ++ joinCommaSp rest

/-- The `SchemaSummary` produced by the grouping pass's summarizer. -/
structure SchemaSummary where
  typeHint : String
  raw : JsValue
deriving Repr, Inhabited

/-- `summarizeSchema` from the grouping pass.  An absent node (the
`!node` guard and any recursion into a missing property) summarises as
`none` with an empty raw node. -/
def summarizeSchema (node : JsValue) : SchemaSummary :=
  if jsFalsy node then ⟨"none", .obj []⟩
  else
    match refString node with
    | some s => ⟨"ref:" ++ s, node⟩
    | none =>
      if objKeysEmpty node then ⟨"opaque\x7b\x7d", node⟩
      else
        let anyOfBranch : Unit → SchemaSummary := fun _ =>
          match hao : getField node "anyOf" with
          | some (.arr cs) =>
            ⟨"constructor[" ++
              joinBarSp (cs.attach.map (fun ⟨c, _hc⟩ =>
                let idxStr :=
                  match getField c "index" with
                  | some (.int i) => toString i
                  | some (.nonint j) => "nonint#" ++ toString j
                  | _ => "?"
                let fieldHints :=
                  match hcf : getField c "fields" with
                  | some (.arr fsx) =>
                    fsx.attach.map (fun ⟨f, _hf⟩ => (summarizeSchema f).typeHint)
                  | _ => []
                "C" ++ idxStr ++ "(" ++ joinCommaSp fieldHints ++ ")")) ++ "]",
              node⟩
          | _ => ⟨"unknown", node⟩
        match hdt : getField node "dataType" with
        | some (.str dt) =>
          if startsWithHash dt then
            if dt = "#list" then
              match hit : getField node "items" with
              | some (.arr opts) =>
                ⟨"list<" ++
                  joinBarSp (opts.attach.map (fun ⟨o, _ho⟩ => (summarizeSchema o).typeHint)) ++
                  ">", node⟩
              | some it => ⟨"list<" ++ (summarizeSchema it).typeHint ++ ">", node⟩
              | none => ⟨"list<" ++ (summarizeSchema JsValue.undef).typeHint ++ ">", node⟩
            else if dt = "#pair" then
              ⟨"pair<" ++
                (summarizeSchema ((getField node "left").getD JsValue.undef)).typeHint ++ ", " ++
                (summarizeSchema ((getField node "right").getD JsValue.undef)).typeHint ++ ">",
                node⟩
            else ⟨strTail dt, node⟩
          else if dt = "integer" then ⟨"integer", node⟩
          else if dt = "bytes" then ⟨"bytes", node⟩
          else if dt = "list" then
            ⟨"list<" ++
              (summarizeSchema ((getField node "items").getD JsValue.undef)).typeHint ++ ">",
              node⟩
          else if dt = "map" then
            ⟨"map<" ++
              (summarizeSchema ((getField node "keys").getD JsValue.undef)).typeHint ++ ", " ++
              (summarizeSchema ((getField node "values").getD JsValue.undef)).typeHint ++ ">",
              node⟩
          else anyOfBranch ()
        | _ => anyOfBranch ()
termination_by sizeOf node
decreasing_by
  · have h₁ := sizeOf_getField_lt hao
    have h₂ := List.sizeOf_lt_of_mem _hc
    have h₃ := sizeOf_getField_lt hcf
    have h₄ := List.sizeOf_lt_of_mem _hf
    simp only [JsValue.arr.sizeOf_spec] at h₁ h₃ h₂ h₄ ⊢
    omega
  · have h₁ := sizeOf_getField_lt hit
    have h₂ := List.sizeOf_lt_of_mem _ho
    simp only [JsValue.arr.sizeOf_spec] at h₁ h₂ ⊢
    omega
  · exact sizeOf_getField_lt hit
  · have h₁ := sizeOf_getField_lt hdt
    have h₂ := one_le_sizeOf (.str dt)
    simp only [JsValue.undef.sizeOf_spec]
    omega
  · exact sizeOf_getFieldD_lt hdt
  · exact sizeOf_getFieldD_lt hdt
  · exact sizeOf_getFieldD_lt hdt
  · exact sizeOf_getFieldD_lt hdt
  · exact sizeOf_getFieldD_lt hdt

/-- One parsed parameter of the grouped output. -/
structure ParsedParamR where
  name : String
  schema : SchemaSummary
deriving Repr, Inhabited

/-- Per-purpose datum/redeemer summary (`{ schema }` wrappers flattened). -/
structure ParsedPurposeR where
  datum : Option SchemaSummary
  redeemer : Option SchemaSummary
deriving Repr, Inhabited

/-- `ParsedValidator` of the grouping pass. -/
structure ParsedValidatorR where
  name : String
  parameters : List ParsedParamR
  compiledCode : Option String
  hash : Option String
  purposes : List (String × ParsedPurposeR)
deriving Repr, Inhabited

/-- `ParsedJson` of the grouping pass. -/
structure ParsedJson where
  plutusVersion : String
  validators : List (String × ParsedValidatorR)
deriving Repr, Inhabited

/-- `extractParameters` (`Array.isArray` guard: absent list degrades to
no parameters). -/
def extractParameters : Option (List ParamAst) → List ParsedParamR
  | none => []
  | some l => l.map (fun p => ⟨p.title, summarizeSchema p.schema⟩)

/-- Generic association-list lookup (JS object property read). -/
def lookupA {α : Type} : List (String × α) → String → Option α
  | [], _ => none
  | (k, v) :: rest, key => if k = key then some v else lookupA rest key

/-- JS object property assignment: replace in place, else append. -/
def setAssoc {α : Type} : List (String × α) → String → α → List (String × α)
  | [], k, x => [(k, x)]
  | (k', y) :: rest, k, x =>
    if k' = k then (k', x) :: rest else (k', y) :: setAssoc rest k x

/-- In-place update of an existing entry. -/
def updateAssoc {α : Type} : List (String × α) → String → (α → α) → List (String × α)
  | [], _, _ => []
  | (k', y) :: rest, k, f =>
    if k' = k then (k', f y) :: rest else (k', y) :: updateAssoc rest k f

/-- The shell built by `getOrInitParsedValidator` on first sighting of a
base: shared parameters/compiledCode/hash come from that first entry. -/
def initParsed (base : String) (v : ValidatorAst) : ParsedValidatorR :=
  ⟨base, extractParameters v.parameters, v.compiledCode, v.hash, []⟩

/-- `addPurposeEntry`'s per-purpose record. -/
def mkPurposeEntry (v : ValidatorAst) : ParsedPurposeR :=
  ⟨v.datum.map (fun d => summarizeSchema d.schema),
   v.redeemer.map (fun d => summarizeSchema d.schema)⟩

/-- One iteration of the loop in `parseAikenBlueprintStrict`: skip `.else`
and unrecognized suffixes, init the base on first sighting, then insert the
purpose entry. -/
def stepValidator (acc : List (String × ParsedValidatorR)) (v : ValidatorAst) :
    List (String × ParsedValidatorR) :=
  let sp := splitBaseAndPurpose v.title
  match sp.purpose with
  | none => acc
  | some p =>
    let acc1 :=
      match lookupA acc sp.base with
      | some _ => acc
      | none => acc ++ [(sp.base, initParsed sp.base v)]
    updateAssoc acc1 sp.base
      (fun pv => { pv with purposes := setAssoc pv.purposes p (mkPurposeEntry v) })

/-- `parseAikenBlueprintStrict`. -/
def parseAikenBlueprintStrict (ast : BlueprintAst) : ParsedJson :=
  ⟨ast.preamble.plutusVersion, ast.validators.foldl stepValidator []⟩

/- ------------------------------------------------------------------
cip57/params.ts: the descriptor builder's resolver, `deref`, and the
bytes-descriptor `validate`/`coerce` closures.
------------------------------------------------------------------ -/

/-- `cur?.[p]`: one step of the property walk in cip57's `resolveRef`.
Property access on primitives is approximated as `undefined` (string
character indexing is not modelled; the walks in this repository only
traverse objects). -/
def jsGetProp (cur : JsValue) (p : String) : JsValue :=
  match cur with
  | .obj fs => (lookupField fs p).getD .undef
  | .arr xs =>
    if p = "length" then .int xs.length
    else
      match p.toNat? with
      | some n => if toString n = p then (xs.get? n).getD .undef else .undef
      | none => .undef
  | _ => (.undef)

/-- `ref.replace(/^#\//, "")`. -/
def stripHashSlash (s : String) : String :=
  match s.data with
  | '#' :: '/' :: rest => String.mk rest
  | _ => s

/-- `s.split("/")`. -/
def splitSlash (s : String) : List String := (splitOnCharL '/' s.data).map String.mk

/-- `resolveRef` from cip57/params.ts: walk the path segments (split on `/`,
with NO `~1` decoding) starting from `{ definitions: defs }`. -/
def resolveRefCip57 (ref : String) (defs : Defs) : JsValue :=
  (splitSlash (stripHashSlash ref)).foldl jsGetProp (.obj [("definitions", .obj defs)])

/-- One unfolding of `deref` from cip57/params.ts
(`if (schema?.$ref) return deref(resolveRef(schema.$ref, defs), defs)`).
A `$ref` that is truthy but not a string would make the JS `ref.replace`
throw; that case is modelled as no result. -/
def derefStep (defs : Defs) (ih : JsValue → Option JsValue) (schema : JsValue) :
    Option JsValue :=
  match getField schema "$ref" with
  | some (.str s) => if s ≠ "" then ih (resolveRefCip57 s defs) else some schema
  | some rv => if jsTruthy rv then none else some schema
  | none => some schema

/-- `deref`, fuelled (it recurses unboundedly through `$ref` chains). -/
def derefF (defs : Defs) (fuel : Nat) : JsValue → Option JsValue :=
  Nat.rec (motive := fun _ => JsValue → Option JsValue)
    (fun _ => none)
    (fun _ ih => derefStep defs ih)
    fuel

theorem derefF_zero (defs : Defs) (v : JsValue) : derefF defs 0 v = none := rfl

theorem derefF_succ (defs : Defs) (n : Nat) (v : JsValue) :
    derefF defs (n + 1) v = derefStep defs (derefF defs n) v := rfl

/-- `raw.startsWith("0x") ? raw.slice(2) : raw` (also `replace(/^0x/, "")`,
which strips the same anchored prefix). -/
def drop0x (s : String) : String :=
  match s.data with
  | '0' :: 'x' :: rest => String.mk rest
  | _ => s

/-- `isHex` from cip57/params.ts: after an optional `0x` prefix, the string
matches `/^[0-9a-fA-F]*$/` (the empty string passes; NO evenness check). -/
def isHexCip (s : String) : Bool := (drop0x s).data.all isHexDigit

/-- `hexEven`: strip the prefix, then left-pad one `0` if the length is odd. -/
def hexEven (raw : String) : String :=
  let s := drop0x raw
  if s.length % 2 = 0 then s else "0" ++ s

/-- `hexToByteLen`. -/
def hexToByteLen (hex : String) : Nat := (drop0x hex).length / 2

/-- `String.prototype.toLowerCase` restricted to ASCII (every reachable
input here is ASCII hex). -/
def lowerChar (c : Char) : Char :=
  if 'A' ≤ c && c ≤ 'Z' then Char.ofNat (c.toNat + 32) else c

/-- ASCII lower-casing of a string. -/
def asciiLower (s : String) : String := String.mk (s.data.map lowerChar)

/-- UTF-8 encoding of one scalar value (what `TextEncoder.encode` emits). -/
def utf8BytesOfChar (c : Char) : List Nat :=
  let n := c.toNat
  if n < 0x80 then [n]
  else if n < 0x800 then [0xC0 + n / 64, 0x80 + n % 64]
  else if n < 0x10000 then [0xE0 + n / 4096, 0x80 + (n / 64) % 64, 0x80 + n % 64]
  else [0xF0 + n / 262144, 0x80 + (n / 4096) % 64, 0x80 + (n / 64) % 64, 0x80 + n % 64]

/-- `b.toString(16).padStart(2, "0")`. -/
def byteHexChars (b : Nat) : List Char := [hexDigitChar (b / 16 % 16), hexDigitChar (b % 16)]

/-- `encodeUtf8ToHex` from cip57/params.ts. -/
def encodeUtf8ToHex (s : String) : String :=
  String.mk ((s.data.flatMap utf8BytesOfChar).flatMap byteHexChars)

/-- The `validate` closure installed on bytes descriptors by
`buildFromSchema` (with the byte bounds the descriptor carries: `none`
models an absent bound). -/
def bytesValidate (minBytes maxBytes : Option Nat) (raw : String) : Option String :=
  let looksHex := isHexCip raw
  let hex := if looksHex then hexEven raw else encodeUtf8ToHex raw
  if !isHexCip hex then some "Invalid hex"
  else if hex.length % 2 ≠ 0 then some "Hex length must be even"
  else
    let byteLen := hexToByteLen hex
    let e₁ : Option String :=
      match minBytes with
      | some m => if byteLen < m then some ("Too short: need ≥ " ++ toString m ++ " bytes") else none
      | none => none
    match e₁ with
    | some e => some e
    | none =>
      match maxBytes with
      | some mx =>
        if byteLen > mx then some ("Too long: max " ++ toString mx ++ " bytes") else none
      | none => none

/-- The `coerce` closure installed on bytes descriptors by `buildFromSchema`. -/
def bytesCoerce (raw : String) : String :=
  if isHexCip raw then asciiLower (drop0x raw)
  else asciiLower (encodeUtf8ToHex raw)

/- ==================================================================
Supporting lemmas
================================================================== -/

theorem drop0x_of_allHex {s : String} (h : s.data.all isHexDigit = true) : drop0x s = s := by
  unfold drop0x
  split
  · rename_i rest heq
    rw [heq] at h
    simp [List.all_cons, isHexDigit] at h
  · rfl

theorem isHexCip_of_allHex {s : String} (h : s.data.all isHexDigit = true) :
    isHexCip s = true := by
  unfold isHexCip
  rw [drop0x_of_allHex h]
  exact h

/-- The normalised hex of a hex-looking input is hex again, with even
length. -/
theorem hexEven_spec {raw : String} (h : isHexCip raw = true) :
    isHexCip (hexEven raw) = true ∧ (hexEven raw).length % 2 = 0 := by
  unfold isHexCip at h
  unfold hexEven
  by_cases he : (drop0x raw).length % 2 = 0
  · simp only [he, if_pos rfl]
    exact ⟨isHexCip_of_allHex h, he⟩
  · simp only [if_neg he]
    have hall : ("0" ++ drop0x raw).data.all isHexDigit = true := by
      rw [String.data_append]
      simp only [List.all_append, Bool.and_eq_true]
      exact ⟨by decide, h⟩
    refine ⟨isHexCip_of_allHex hall, ?_⟩
    rw [String.length_append, show "0".length = 1 from rfl]
    omega

/- ==================================================================
Shared concrete sample documents (used by several claims' concrete
theorems and witnesses)
================================================================== -/

/-- A minimal structurally valid preamble. -/
def samplePre : JsValue :=
  .obj [("title", .str "t"), ("version", .str "1"), ("plutusVersion", .str "v3"),
    ("compiler", .obj [("name", .str "aiken"), ("version", .str "1")])]

/-- A purpose-suffixed validator entry with the given title and code. -/
def sampleVal (title code : String) : JsValue :=
  .obj [("title", .str title), ("compiledCode", .str code)]

/-- A document built from a list of validator entries. -/
def sampleDoc (vs : List JsValue) : JsValue :=
  .obj [("preamble", samplePre), ("validators", .arr vs)]

/-- Boolean success of `validateAikenBlueprint`. -/
def vresultOk : VResult → Bool
  | .ok _ => true
  | .err _ => false

/- ==================================================================
Claim theorems
================================================================== -/

/-- Modelled from the spec: decoding of the escape `~1` back to a literal
`/` inside one reference segment ("`<key>` may itself contain encoded path
separators (literal `/` is escaped as `~1` …) — the resolver must decode
exactly one reference segment to the corresponding map key").  Used to state
what the resolvers are claimed to do; the source resolvers perform no such
decoding. -/
def decodeTilde1 (s : String) : String := String.mk (go s.data)
where
  go : List Char → List Char
    | '~' :: '1' :: rest => '/' :: go rest
    | c :: rest => c :: go rest
    | [] => []

/-- C1 (the code violates the claim): with the definitions table keyed by the
decoded name `cardano/assets/PolicyId` (as Aiken emits it) and the escaped
reference `#/definitions/cardano~1assets~1PolicyId` (as Aiken emits it, and
as `detectSemantics` in cip57/params.ts expects), the decoded key IS in the
table, yet paramChecker's `resolveRef` reports not-found (it looks up the
escaped key literally), the value validator therefore fails with an
unresolved-reference message, and cip57's `resolveRef` walks
`cardano~1assets~1PolicyId` as a single flat segment and yields `undefined`. -/
theorem C1_resolveRef_no_tilde_decoding :
    decodeTilde1 "cardano~1assets~1PolicyId" = "cardano/assets/PolicyId" ∧
    lookupField [("cardano/assets/PolicyId", .obj [("title", .str "PolicyId"), ("dataType", .str "bytes")])]
      "cardano/assets/PolicyId" =
      some (.obj [("title", .str "PolicyId"), ("dataType", .str "bytes")]) ∧
    resolveRef "#/definitions/cardano~1assets~1PolicyId"
      [("cardano/assets/PolicyId", .obj [("title", .str "PolicyId"), ("dataType", .str "bytes")])] = none ∧
    resolveRefCip57 "#/definitions/cardano~1assets~1PolicyId"
      [("cardano/assets/PolicyId", .obj [("title", .str "PolicyId"), ("dataType", .str "bytes")])] = .undef ∧
    checkNodeF [("cardano/assets/PolicyId", .obj [("title", .str "PolicyId"), ("dataType", .str "bytes")])]
      DEFAULT_CFG 5
      (.obj [("$ref", .str "#/definitions/cardano~1assets~1PolicyId")]) (.str "aabb") =
      some (.fail "Unresolved $ref: #/definitions/cardano~1assets~1PolicyId") :=
  ⟨rfl, rfl, rfl, rfl, rfl⟩

/-- C2 counterexample: a structurally valid document stops validating once
one unknown top-level key is added — the top-level object schema is
`.strict()`, so unknown top-level keys ARE a cause of rejection. -/
theorem C2_counterexample_top_level_strict :
    vresultOk (validateAikenBlueprint (sampleDoc [sampleVal "foo.spend" "43aabbcc"])) = true ∧
    (.obj [("preamble", samplePre),
       ("validators", .arr [sampleVal "foo.spend" "43aabbcc"]), ("extra", .null)] : JsValue) =
      (match sampleDoc [sampleVal "foo.spend" "43aabbcc"] with
       | .obj fs => .obj (fs ++ [("extra", .null)])
       | v => v) ∧
    vresultOk (validateAikenBlueprint
      (.obj [("preamble", samplePre),
        ("validators", .arr [sampleVal "foo.spend" "43aabbcc"]), ("extra", .null)])) = false :=
  ⟨rfl, rfl, rfl⟩

/-- `addIssues` with a non-empty issue list never yields a success. -/
theorem addIssues_cons_isOk {α : Type} (i : Issue) (iss : List Issue)
    (e : Except (List Issue) α) : (addIssues (i :: iss) e).isOk = false := by
  unfold addIssues
  rw [if_neg (by simp)]
  cases e <;> rfl

/-- `objFieldP` ignores an appended field with a different key. -/
theorem objFieldP_append_of_ne {fs : List (String × JsValue)} {k k' : String} {v' : JsValue}
    (h : k ≠ k') : objFieldP (fs ++ [(k, v')]) k' = objFieldP fs k' := by
  unfold objFieldP
  have : lookupField (fs ++ [(k, v')]) k' = lookupField fs k' := by
    induction fs with
    | nil => simp [lookupField, h]
    | cons p rest ih =>
      rw [List.cons_append]
      rw [show p = (p.1, p.2) from rfl]
      rw [lookupField, lookupField]
      by_cases hk : p.1 = k'
      · simp [hk]
      · simp only [if_neg hk]
        exact ih
  rw [this]

theorem parseRequiredString_append {path : List PathSeg} {fs : List (String × JsValue)}
    {k k' : String} {v' : JsValue} (h : k ≠ k') :
    parseRequiredString path (fs ++ [(k, v')]) k' = parseRequiredString path fs k' := by
  unfold parseRequiredString
  rw [objFieldP_append_of_ne h]

theorem parseCompiledCode_append {path : List PathSeg} {fs : List (String × JsValue)}
    {k : String} {v' : JsValue} (h : k ≠ "compiledCode") :
    parseCompiledCode path (fs ++ [(k, v')]) = parseCompiledCode path fs := by
  unfold parseCompiledCode
  rw [objFieldP_append_of_ne h]

theorem parseHash_append {path : List PathSeg} {fs : List (String × JsValue)}
    {k : String} {v' : JsValue} (h : k ≠ "hash") :
    parseHash path (fs ++ [(k, v')]) = parseHash path fs := by
  unfold parseHash
  rw [objFieldP_append_of_ne h]

/-- `refOnlyOk` keys are all `$ref`, so the annotatable lookups are empty. -/
theorem lookupField_none_of_all_ref {fs : List (String × JsValue)} {k : String}
    (hall : fs.all (fun p => p.1 = "$ref") = true) (h : k ≠ "$ref") :
    lookupField fs k = none := by
  induction fs with
  | nil => rfl
  | cons p rest ih =>
    simp only [List.all_cons, Bool.and_eq_true, decide_eq_true_eq] at hall
    rw [show p = (p.1, p.2) from rfl, lookupField]
    rw [if_neg (by rw [hall.1]; exact fun hh => h hh.symm)]
    exact ih hall.2

/-- C2 amended: unknown/extra fields on validator entries and on schema
nodes never cause rejection (the validator object is in zod's default strip
mode and the schema-node union tolerates arbitrary extra keys), but the
TOP-LEVEL object is `.strict()`: any document object carrying a key other
than `preamble`/`validators`/`definitions` is rejected. -/
theorem C2_unknown_fields
    :
    (∀ fs : List (String × JsValue),
      (∃ p ∈ fs, p.1 ∉ (["preamble", "validators", "definitions"] : List String)) →
      (structParse (.obj fs)).isOk = false) ∧
    (∀ (path : List PathSeg) (fs : List (String × JsValue)) (k : String) (v' : JsValue),
      k ∉ (["title", "datum", "redeemer", "parameters", "compiledCode", "hash"] : List String) →
      parseValidator path (.obj (fs ++ [(k, v')])) = parseValidator path (.obj fs)) ∧
    (∀ (fs : List (String × JsValue)) (k : String) (v' : JsValue),
      k ∉ (["$ref", "title", "description"] : List String) →
      schemaDeclOk (.obj fs) = true → schemaDeclOk (.obj (fs ++ [(k, v')])) = true) := by
  refine ⟨?_, ?_, ?_⟩
  · intro fs hex
    obtain ⟨p, hp, hk⟩ := hex
    have hmem : p ∈ fs.filter (fun p => !(p.1 = "preamble" || p.1 = "validators" || p.1 = "definitions")) := by
      rw [List.mem_filter]
      refine ⟨hp, ?_⟩
      simp only [List.mem_cons, List.mem_singleton, List.not_mem_nil] at hk
      simp only [Bool.not_eq_true', Bool.or_eq_false_iff, decide_eq_false_iff_not]
      tauto
    have hne : (fs.filter
        (fun p => !(p.1 = "preamble" || p.1 = "validators" || p.1 = "definitions"))).isEmpty = false := by
      cases hfil : fs.filter (fun p => !(p.1 = "preamble" || p.1 = "validators" || p.1 = "definitions")) with
      | nil => rw [hfil] at hmem; exact absurd hmem (List.not_mem_nil p)
      | cons a l => rfl
    simp only [structParse, hne, Bool.false_eq_true, if_false]
    exact addIssues_cons_isOk _ _ _
  · intro path fs k v' hk
    simp only [List.mem_cons, List.mem_singleton, List.not_mem_nil, not_or] at hk
    obtain ⟨h₁, h₂, h₃, h₄, h₅, h₆, -⟩ := hk
    simp only [parseValidator]
    rw [parseRequiredString_append h₁, objFieldP_append_of_ne h₂, objFieldP_append_of_ne h₃,
      objFieldP_append_of_ne h₄, parseCompiledCode_append h₅, parseHash_append h₆]
  · intro fs k v' hk hok
    simp only [List.mem_cons, List.mem_singleton, List.not_mem_nil, not_or] at hk
    obtain ⟨h₁, h₂, h₃, -⟩ := hk
    have hann : ∀ gs : List (String × JsValue),
        annotatableOk gs = true → annotatableOk (gs ++ [(k, v')]) = true := by
      intro gs hgs
      unfold annotatableOk at hgs ⊢
      rw [objFieldP_append_of_ne h₂, objFieldP_append_of_ne h₃]
      exact hgs
    unfold schemaDeclOk at hok ⊢
    simp only [Bool.or_eq_true] at hok
    rcases hok with hok | hok
    · rcases hok with href | hemp
      · -- RefOnly: the appended key breaks strictness, but the TypeDef
        -- branch still accepts (its title/description lookups are empty).
        unfold refOnlyOk at href
        simp only [Bool.and_eq_true] at href
        have hnone : ∀ k'' : String, k'' ≠ "$ref" → objFieldP fs k'' = none := by
          intro k'' hne
          unfold objFieldP
          rw [lookupField_none_of_all_ref href.2 hne]
        have : annotatableOk fs = true := by
          unfold annotatableOk
          rw [hnone "title" (by decide), hnone "description" (by decide)]
          rfl
        simp [hann fs this]
      · -- EmptySchema: appended singleton is annotatable.
        have : fs = [] := List.isEmpty_iff.mp hemp
        subst this
        have h₅ : annotatableOk [(k, v')] = true := by simpa using hann [] rfl
        simp [h₅]
    · simp [hann fs hok]

/- Association-list and split lemmas for the grouping pass. -/

theorem lookupA_append_some {α : Type} {l r : List (String × α)} {b : String} {y : α}
    (h : lookupA l b = some y) : lookupA (l ++ r) b = some y := by
  induction l with
  | nil => simp [lookupA] at h
  | cons p rest ih =>
    rw [show p = (p.1, p.2) from rfl] at h ⊢
    rw [List.cons_append, lookupA]
    rw [lookupA] at h
    by_cases hk : p.1 = b
    · simpa [hk] using h
    · rw [if_neg hk] at h ⊢
      exact ih h

theorem lookupA_append_none {α : Type} {l : List (String × α)} {b : String}
    (h : lookupA l b = none) (r : List (String × α)) :
    lookupA (l ++ r) b = lookupA r b := by
  induction l with
  | nil => rfl
  | cons p rest ih =>
    rw [show p = (p.1, p.2) from rfl] at h ⊢
    rw [List.cons_append, lookupA]
    rw [lookupA] at h
    by_cases hk : p.1 = b
    · simp [hk] at h
    · rw [if_neg hk] at h ⊢
      exact ih h

theorem lookupA_updateAssoc_self {α : Type} {l : List (String × α)} (k : String)
    (f : α → α) : lookupA (updateAssoc l k f) k = (lookupA l k).map f := by
  induction l with
  | nil => rfl
  | cons p rest ih =>
    rw [show p = (p.1, p.2) from rfl]
    rw [updateAssoc]
    by_cases hk : p.1 = k
    · simp [lookupA, hk]
    · rw [if_neg hk, lookupA, if_neg hk, lookupA, if_neg hk]
      exact ih

theorem lookupA_updateAssoc_ne {α : Type} {l : List (String × α)} {k b : String}
    (f : α → α) (h : b ≠ k) : lookupA (updateAssoc l k f) b = lookupA l b := by
  induction l with
  | nil => rfl
  | cons p rest ih =>
    rw [show p = (p.1, p.2) from rfl]
    rw [updateAssoc]
    by_cases hk : p.1 = k
    · rw [if_pos hk, lookupA, lookupA]
      rw [if_neg (by rw [hk]; exact fun hh => h hh.symm), if_neg (by rw [hk]; exact fun hh => h hh.symm)]
    · rw [if_neg hk, lookupA, lookupA]
      by_cases hb : p.1 = b
      · simp [hb]
      · rw [if_neg hb, if_neg hb]
        exact ih

theorem setAssoc_mem_self {α : Type} (ps : List (String × α)) (k : String) (x : α) :
    (k, x) ∈ setAssoc ps k x := by
  induction ps with
  | nil => exact List.mem_singleton.mpr rfl
  | cons p rest ih =>
    rw [show p = (p.1, p.2) from rfl]
    rw [setAssoc]
    by_cases hk : p.1 = k
    · rw [if_pos hk, hk]
      exact List.mem_cons_self _ _
    · rw [if_neg hk]
      exact List.mem_cons_of_mem _ ih

theorem setAssoc_mem_of_mem_ne {α : Type} {ps : List (String × α)} {p : String} {e : α}
    (k : String) (x : α) (hm : (p, e) ∈ ps) (hne : p ≠ k) : (p, e) ∈ setAssoc ps k x := by
  induction ps with
  | nil => simp at hm
  | cons q rest ih =>
    obtain ⟨qk, qv⟩ := q
    rw [setAssoc]
    rcases List.mem_cons.mp hm with hm | hm
    · obtain ⟨hp, he⟩ := Prod.mk.injEq .. ▸ hm
      by_cases hk : qk = k
      · exact absurd (hp.trans hk) hne
      · rw [if_neg hk]
        exact List.mem_cons.mpr (Or.inl (by rw [hp, he]))
    · by_cases hk : qk = k
      · rw [if_pos hk]
        exact List.mem_cons_of_mem _ hm
      · rw [if_neg hk]
        exact List.mem_cons_of_mem _ (ih hm)

theorem setAssoc_mem_elim {α : Type} {ps : List (String × α)} {k p : String} {x e : α}
    (h : (p, e) ∈ setAssoc ps k x) : (p = k ∧ e = x) ∨ (p, e) ∈ ps := by
  induction ps with
  | nil =>
    rw [setAssoc] at h
    have h := List.mem_singleton.mp h
    obtain ⟨hp, he⟩ := Prod.mk.injEq .. ▸ h
    exact Or.inl ⟨hp, he⟩
  | cons q rest ih =>
    obtain ⟨qk, qv⟩ := q
    rw [setAssoc] at h
    by_cases hk : qk = k
    · rw [if_pos hk] at h
      rcases List.mem_cons.mp h with h | h
      · obtain ⟨hp, he⟩ := Prod.mk.injEq .. ▸ h
        exact Or.inl ⟨hp.trans hk, he⟩
      · exact Or.inr (List.mem_cons_of_mem _ h)
    · rw [if_neg hk] at h
      rcases List.mem_cons.mp h with h | h
      · exact Or.inr (h ▸ List.mem_cons_self _ _)
      · rcases ih h with h | h
        · exact Or.inl h
        · exact Or.inr (List.mem_cons_of_mem _ h)

/-- A recognized purpose produced by `splitBaseAndPurpose` is one of the six
purpose tags. -/
theorem split_purpose_mem {t p : String} (h : (splitBaseAndPurpose t).purpose = some p) :
    p ∈ PURPOSES := by
  simp only [splitBaseAndPurpose] at h
  split at h
  · simp at h
  · split at h
    · rename_i hcon
      cases h
      exact List.mem_of_elem_eq_true hcon
    · simp at h

/-- An entry with a recognized purpose is not an `.else` entry. -/
theorem split_isElse_of_purpose {t p : String}
    (h : (splitBaseAndPurpose t).purpose = some p) :
    (splitBaseAndPurpose t).isElse = false := by
  simp only [splitBaseAndPurpose] at h ⊢
  split at h
  · simp at h
  · rename_i h₁
    split at h
    · rename_i h₂
      rw [if_neg h₁, if_pos h₂]
    · simp at h

/- Step/fold lemmas for `parseAikenBlueprintStrict`'s loop. -/

theorem stepValidator_none {acc : List (String × ParsedValidatorR)} {v : ValidatorAst}
    (hsp : (splitBaseAndPurpose v.title).purpose = none) :
    stepValidator acc v = acc := by
  simp [stepValidator, hsp]

theorem stepValidator_some {acc : List (String × ParsedValidatorR)} {v : ValidatorAst}
    {p₀ : String} (hsp : (splitBaseAndPurpose v.title).purpose = some p₀) :
    stepValidator acc v =
      updateAssoc
        (match lookupA acc (splitBaseAndPurpose v.title).base with
         | some _ => acc
         | none =>
           acc ++ [((splitBaseAndPurpose v.title).base,
             initParsed (splitBaseAndPurpose v.title).base v)])
        (splitBaseAndPurpose v.title).base
        (fun pv => { pv with purposes := setAssoc pv.purposes p₀ (mkPurposeEntry v) }) := by
  simp [stepValidator, hsp]

/-- A base untouched by this entry keeps its binding. -/
theorem lookupA_step_other {acc : List (String × ParsedValidatorR)} {v : ValidatorAst}
    {base : String}
    (h : ∀ p₀, (splitBaseAndPurpose v.title).purpose = some p₀ →
      (splitBaseAndPurpose v.title).base ≠ base) :
    lookupA (stepValidator acc v) base = lookupA acc base := by
  cases hsp : (splitBaseAndPurpose v.title).purpose with
  | none => rw [stepValidator_none hsp]
  | some p₀ =>
    have hne : base ≠ (splitBaseAndPurpose v.title).base := fun hh => h p₀ hsp hh.symm
    rw [stepValidator_some hsp, lookupA_updateAssoc_ne _ hne]
    cases hacc : lookupA acc (splitBaseAndPurpose v.title).base with
    | some pv1 => rfl
    | none =>
      cases hb : lookupA acc base with
      | some y => exact lookupA_append_some hb
      | none =>
        rw [lookupA_append_none hb]
        simp only [lookupA]
        rw [if_neg (fun hh => hne hh.symm)]

/-- The binding of this entry's own base after the step. -/
theorem lookupA_step_self {acc : List (String × ParsedValidatorR)} {v : ValidatorAst}
    {p₀ : String} (hsp : (splitBaseAndPurpose v.title).purpose = some p₀) :
    lookupA (stepValidator acc v) (splitBaseAndPurpose v.title).base =
      some
        (let pv1 :=
          match lookupA acc (splitBaseAndPurpose v.title).base with
          | some pv1 => pv1
          | none => initParsed (splitBaseAndPurpose v.title).base v
        { pv1 with purposes := setAssoc pv1.purposes p₀ (mkPurposeEntry v) }) := by
  rw [stepValidator_some hsp]
  cases hacc : lookupA acc (splitBaseAndPurpose v.title).base with
  | some pv1 =>
    rw [lookupA_updateAssoc_self, hacc]
    rfl
  | none =>
    rw [lookupA_updateAssoc_self, lookupA_append_none hacc]
    simp [lookupA]

/-- The binding after the step when the base was previously absent: a fresh
record carrying the entry's shared fields and its single purpose. -/
theorem lookupA_step_self_fresh {acc : List (String × ParsedValidatorR)} {v : ValidatorAst}
    {p₀ : String} (hsp : (splitBaseAndPurpose v.title).purpose = some p₀)
    (hnone : lookupA acc (splitBaseAndPurpose v.title).base = none) :
    lookupA (stepValidator acc v) (splitBaseAndPurpose v.title).base =
      some ⟨(splitBaseAndPurpose v.title).base, extractParameters v.parameters,
        v.compiledCode, v.hash, [(p₀, mkPurposeEntry v)]⟩ := by
  rw [stepValidator_some hsp]
  simp only [hnone]
  rw [lookupA_updateAssoc_self, lookupA_append_none hnone]
  simp [lookupA, initParsed, setAssoc]

/-- Folding more entries preserves an existing base's shared fields and
never removes a purpose key. -/
theorem fold_preserves (vs : List ValidatorAst) :
    ∀ (acc : List (String × ParsedValidatorR)) (base : String) (pv : ParsedValidatorR),
    lookupA acc base = some pv →
    ∃ pv', lookupA (vs.foldl stepValidator acc) base = some pv' ∧
      pv'.name = pv.name ∧ pv'.parameters = pv.parameters ∧
      pv'.compiledCode = pv.compiledCode ∧ pv'.hash = pv.hash ∧
      (∀ p e, (p, e) ∈ pv.purposes → ∃ e', (p, e') ∈ pv'.purposes) := by
  induction vs with
  | nil =>
    intro acc base pv h
    exact ⟨pv, h, rfl, rfl, rfl, rfl, fun p e hm => ⟨e, hm⟩⟩
  | cons v vs ih =>
    intro acc base pv h
    rw [List.foldl_cons]
    have hstep : ∃ pv₀, lookupA (stepValidator acc v) base = some pv₀ ∧
        pv₀.name = pv.name ∧ pv₀.parameters = pv.parameters ∧
        pv₀.compiledCode = pv.compiledCode ∧ pv₀.hash = pv.hash ∧
        (∀ p e, (p, e) ∈ pv.purposes → ∃ e', (p, e') ∈ pv₀.purposes) := by
      cases hsp : (splitBaseAndPurpose v.title).purpose with
      | none =>
        rw [stepValidator_none hsp]
        exact ⟨pv, h, rfl, rfl, rfl, rfl, fun p e hm => ⟨e, hm⟩⟩
      | some p₀ =>
        by_cases hb : (splitBaseAndPurpose v.title).base = base
        · subst hb
          rw [lookupA_step_self hsp]
          simp only [h]
          refine ⟨_, rfl, rfl, rfl, rfl, rfl, ?_⟩
          intro p e hm
          by_cases hp : p = p₀
          · subst hp
            exact ⟨mkPurposeEntry v, setAssoc_mem_self _ _ _⟩
          · exact ⟨e, setAssoc_mem_of_mem_ne _ _ hm hp⟩
        · rw [lookupA_step_other (fun _ _ => hb)]
          exact ⟨pv, h, rfl, rfl, rfl, rfl, fun p e hm => ⟨e, hm⟩⟩
    obtain ⟨pv₀, h₀, hn₀, hp₀, hc₀, hh₀, hk₀⟩ := hstep
    obtain ⟨pv', h', hn', hp', hc', hh', hk'⟩ := ih (stepValidator acc v) base pv₀ h₀
    refine ⟨pv', h', hn'.trans hn₀, hp'.trans hp₀, hc'.trans hc₀, hh'.trans hh₀, ?_⟩
    intro p e hm
    obtain ⟨e₁, hm₁⟩ := hk₀ p e hm
    exact hk' p e₁ hm₁

/-- The first entry of a base (in array order) supplies the shared fields of
the base's final record. -/
theorem fold_first (vs : List ValidatorAst) :
    ∀ (acc : List (String × ParsedValidatorR)) (base : String) (pv : ParsedValidatorR),
    lookupA acc base = none →
    lookupA (vs.foldl stepValidator acc) base = some pv →
    ∃ pre v post, vs = pre ++ v :: post ∧
      (splitBaseAndPurpose v.title).purpose.isSome = true ∧
      (splitBaseAndPurpose v.title).base = base ∧
      (∀ w ∈ pre, ¬((splitBaseAndPurpose w.title).purpose.isSome = true ∧
        (splitBaseAndPurpose w.title).base = base)) ∧
      pv.name = base ∧ pv.parameters = extractParameters v.parameters ∧
      pv.compiledCode = v.compiledCode ∧ pv.hash = v.hash := by
  induction vs with
  | nil =>
    intro acc base pv h₀ hf
    rw [List.foldl_nil, h₀] at hf
    cases hf
  | cons v vs ih =>
    intro acc base pv h₀ hf
    rw [List.foldl_cons] at hf
    by_cases hmatch : (splitBaseAndPurpose v.title).purpose.isSome = true ∧
        (splitBaseAndPurpose v.title).base = base
    · obtain ⟨hps, hpb⟩ := hmatch
      obtain ⟨p₀, hp₀⟩ := Option.isSome_iff_exists.mp hps
      have hself := @lookupA_step_self_fresh acc v p₀ hp₀ (by rw [hpb]; exact h₀)
      rw [hpb] at hself
      obtain ⟨pv', h', hn', hp', hc', hh', -⟩ :=
        fold_preserves vs (stepValidator acc v) base _ hself
      rw [hf] at h'
      cases h'
      refine ⟨[], v, vs, rfl, hps, hpb, by simp, ?_, ?_, ?_, ?_⟩
      · exact hn'
      · exact hp'
      · exact hc'
      · exact hh'
    · have hkeep : lookupA (stepValidator acc v) base = none := by
        rw [lookupA_step_other, h₀]
        intro p₀ hp₀ hb
        exact hmatch ⟨by rw [hp₀]; rfl, hb⟩
      obtain ⟨pre, w, post, hvs, h₁, h₂, h₃, h₄, h₅, h₆, h₇⟩ := ih _ base pv hkeep hf
      refine ⟨v :: pre, w, post, by rw [hvs, List.cons_append], h₁, h₂, ?_, h₄, h₅, h₆, h₇⟩
      intro w' hw'
      rcases List.mem_cons.mp hw' with hw' | hw'
      · rw [hw']
        exact hmatch
      · exact h₃ w' hw'

/-- The step for a recognized purpose inserts that purpose under its base. -/
theorem step_inserts {acc : List (String × ParsedValidatorR)} {v : ValidatorAst}
    {p₀ : String} (hsp : (splitBaseAndPurpose v.title).purpose = some p₀) :
    ∃ pv, lookupA (stepValidator acc v) (splitBaseAndPurpose v.title).base = some pv ∧
      (p₀, mkPurposeEntry v) ∈ pv.purposes := by
  rw [lookupA_step_self hsp]
  exact ⟨_, rfl, setAssoc_mem_self _ _ _⟩

/-- Soundness of the fold with respect to any per-(base, purpose) property
established by the contributing entries. -/
theorem fold_purpose_sound (Q : String → String → Prop) (vs : List ValidatorAst) :
    ∀ acc : List (String × ParsedValidatorR),
    (∀ base pv p e, lookupA acc base = some pv → (p, e) ∈ pv.purposes → Q base p) →
    (∀ v ∈ vs, ∀ p, (splitBaseAndPurpose v.title).purpose = some p →
      Q (splitBaseAndPurpose v.title).base p) →
    ∀ base pv p e, lookupA (vs.foldl stepValidator acc) base = some pv →
      (p, e) ∈ pv.purposes → Q base p := by
  induction vs with
  | nil =>
    intro acc hacc _ base pv p e hl hm
    exact hacc _ _ _ _ hl hm
  | cons v vs ih =>
    intro acc hacc hvs base pv p e hl hm
    rw [List.foldl_cons] at hl
    refine ih (stepValidator acc v) ?_ (fun w hw => hvs w (List.mem_cons_of_mem _ hw))
      base pv p e hl hm
    intro base' pv' p' e' hl' hm'
    cases hsp : (splitBaseAndPurpose v.title).purpose with
    | none =>
      rw [stepValidator_none hsp] at hl'
      exact hacc _ _ _ _ hl' hm'
    | some p₀ =>
      by_cases hb : (splitBaseAndPurpose v.title).base = base'
      · subst hb
        rw [lookupA_step_self hsp] at hl'
        cases hacc₁ : lookupA acc (splitBaseAndPurpose v.title).base with
        | some pv₁ =>
          simp only [hacc₁] at hl'
          cases hl'
          rcases setAssoc_mem_elim hm' with ⟨hpe, -⟩ | hm₂
          · subst hpe
            exact hvs v (List.mem_cons_self _ _) p' hsp
          · exact hacc _ _ _ _ hacc₁ hm₂
        | none =>
          simp only [hacc₁] at hl'
          cases hl'
          rcases setAssoc_mem_elim hm' with ⟨hpe, -⟩ | hm₂
          · subst hpe
            exact hvs v (List.mem_cons_self _ _) p' hsp
          · simp [initParsed] at hm₂
      · rw [lookupA_step_other (fun _ _ => hb)] at hl'
        exact hacc _ _ _ _ hl' hm'

/-- Eta-expansion of a split with a recognized purpose. -/
theorem split_eq_of_purpose {t p : String}
    (h : (splitBaseAndPurpose t).purpose = some p) :
    splitBaseAndPurpose t = ⟨(splitBaseAndPurpose t).base, some p, false⟩ := by
  have hie := split_isElse_of_purpose h
  cases hsp : splitBaseAndPurpose t with
  | mk b pu ie =>
    rw [hsp] at h hie
    simp only at h hie
    rw [h, hie]

/-- A base/purpose pair in the grouped output is contributed by some
purpose-suffixed entry of the document. -/
theorem hasKey_iff (ast : BlueprintAst) (base p : String) :
    (∃ pv e, lookupA (parseAikenBlueprintStrict ast).validators base = some pv ∧
      (p, e) ∈ pv.purposes) ↔
    (∃ v ∈ ast.validators, splitBaseAndPurpose v.title = ⟨base, some p, false⟩) := by
  constructor
  · rintro ⟨pv, e, hl, hm⟩
    refine fold_purpose_sound
      (fun b q => ∃ v ∈ ast.validators, splitBaseAndPurpose v.title = ⟨b, some q, false⟩)
      ast.validators [] ?_ ?_ base pv p e hl hm
    · intro b' pv' p' e' hl' _
      simp [lookupA] at hl'
    · intro v hv q hq
      exact ⟨v, hv, by rw [split_eq_of_purpose hq]⟩
  · rintro ⟨v, hv, hsplit⟩
    obtain ⟨pre, post, hdec⟩ := List.append_of_mem hv
    have hpurp : (splitBaseAndPurpose v.title).purpose = some p := by rw [hsplit]
    have hbase : (splitBaseAndPurpose v.title).base = base := by rw [hsplit]
    have : (parseAikenBlueprintStrict ast).validators =
        post.foldl stepValidator (stepValidator (pre.foldl stepValidator []) v) := by
      show ast.validators.foldl stepValidator [] = _
      rw [hdec, List.foldl_append, List.foldl_cons]
    obtain ⟨pv₀, hl₀, hm₀⟩ := @step_inserts (pre.foldl stepValidator []) v p hpurp
    rw [hbase] at hl₀
    obtain ⟨pv', hl', -, -, -, -, hk'⟩ := fold_preserves post _ base pv₀ hl₀
    obtain ⟨e', he'⟩ := hk' p (mkPurposeEntry v) hm₀
    exact ⟨pv', e', by rw [this]; exact hl', he'⟩

/-- C5: in the grouped output of a valid document, every purpose key of
every base is one of the six recognized tags, and it is contributed by an
entry whose title splits into that base and that recognized purpose —
`.else` entries and unrecognized-suffix entries never surface as a purpose. -/
theorem C5_purpose_keys_recognized :
    ∀ (ast : BlueprintAst) (base : String) (pv : ParsedValidatorR) (p : String)
      (e : ParsedPurposeR),
      lookupA (parseAikenBlueprintStrict ast).validators base = some pv →
      (p, e) ∈ pv.purposes →
      p ∈ PURPOSES ∧
        ∃ v ∈ ast.validators, splitBaseAndPurpose v.title = ⟨base, some p, false⟩ := by
  intro ast base pv p e hl hm
  refine ⟨?_, (hasKey_iff ast base p).mp ⟨pv, e, hl, hm⟩⟩
  refine fold_purpose_sound (fun _ q => q ∈ PURPOSES) ast.validators [] ?_ ?_ base pv p e hl hm
  · intro b' pv' p' e' hl' _
    simp [lookupA] at hl'
  · intro v _ q hq
    exact split_purpose_mem hq

/-- Witness for C5: a one-validator document whose single entry
`foo.spend` produces exactly the purpose key `spend` under base `foo`. -/
theorem C5_purpose_keys_recognized_witness :
    lookupA
      (parseAikenBlueprintStrict
        ⟨⟨"t", "1", "v3", "aiken", "1", none, none⟩,
         [⟨"foo.spend", none, none, none, some "43aabbcc", none⟩], none⟩).validators
      "foo" =
      some ⟨"foo", [], some "43aabbcc", none, [("spend", ⟨none, none⟩)]⟩ ∧
    ("spend", (⟨none, none⟩ : ParsedPurposeR)) ∈
      [(("spend" : String), (⟨none, none⟩ : ParsedPurposeR))] ∧
    ("spend" ∈ PURPOSES ∧
      ∃ v ∈ [(⟨"foo.spend", none, none, none, some "43aabbcc", none⟩ : ValidatorAst)],
        splitBaseAndPurpose v.title = ⟨"foo", some "spend", false⟩) :=
  ⟨rfl, List.mem_singleton.mpr rfl,
   C5_purpose_keys_recognized
     ⟨⟨"t", "1", "v3", "aiken", "1", none, none⟩,
      [⟨"foo.spend", none, none, none, some "43aabbcc", none⟩], none⟩
     "foo" ⟨"foo", [], some "43aabbcc", none, [("spend", ⟨none, none⟩)]⟩ "spend" ⟨none, none⟩
     rfl (List.mem_singleton.mpr rfl)⟩

/-- C4: (1) for any permutation of the validator list, each base ends up
with the same set of purpose keys; (2) the stored shared fields
(parameters, compiledCode, hash) of each base are those of the first
array-order entry for that base — later entries' shared fields are ignored
for storage; (3) the equality guard's parameter comparison uses a canonical
order-independent key, so permuted parameter lists never trigger a
parameters guard violation. -/
theorem C4_grouping_order_independence :
    (∀ ast ast' : BlueprintAst, ast.validators.Perm ast'.validators →
      ∀ base p,
        (∃ pv e, lookupA (parseAikenBlueprintStrict ast).validators base = some pv ∧
          (p, e) ∈ pv.purposes) ↔
        (∃ pv e, lookupA (parseAikenBlueprintStrict ast').validators base = some pv ∧
          (p, e) ∈ pv.purposes)) ∧
    (∀ (ast : BlueprintAst) (base : String) (pv : ParsedValidatorR),
      lookupA (parseAikenBlueprintStrict ast).validators base = some pv →
      ∃ pre v post, ast.validators = pre ++ v :: post ∧
        (splitBaseAndPurpose v.title).purpose.isSome = true ∧
        (splitBaseAndPurpose v.title).base = base ∧
        (∀ w ∈ pre, ¬((splitBaseAndPurpose w.title).purpose.isSome = true ∧
          (splitBaseAndPurpose w.title).base = base)) ∧
        pv.parameters = extractParameters v.parameters ∧
        pv.compiledCode = v.compiledCode ∧ pv.hash = v.hash) ∧
    (∀ a b : List ParamAst, a.Perm b → sameParamSets (some a) (some b) = true) := by
  refine ⟨?_, ?_, ?_⟩
  · intro ast ast' hperm base p
    rw [hasKey_iff, hasKey_iff]
    constructor
    · rintro ⟨v, hv, hs⟩
      exact ⟨v, hperm.mem_iff.mp hv, hs⟩
    · rintro ⟨v, hv, hs⟩
      exact ⟨v, hperm.mem_iff.mpr hv, hs⟩
  · intro ast base pv hl
    obtain ⟨pre, v, post, hdec, h₁, h₂, h₃, -, h₅, h₆, h₇⟩ :=
      fold_first ast.validators [] base pv rfl hl
    exact ⟨pre, v, post, hdec, h₁, h₂, h₃, h₅, h₆, h₇⟩
  · intro a b hab
    unfold sameParamSets
    have hmap : (a.map stableParamKey).Perm (b.map stableParamKey) := hab.map _
    have hAB : (List.insertionSort (fun x y : String => x ≤ y) (a.map stableParamKey)).Perm
        (List.insertionSort (fun x y : String => x ≤ y) (b.map stableParamKey)) :=
      ((List.perm_insertionSort _ _).trans hmap).trans (List.perm_insertionSort _ _).symm
    have heq := List.eq_of_perm_of_sorted hAB
      (List.sorted_insertionSort _ _) (List.sorted_insertionSort _ _)
    simp only [Option.getD]
    rw [heq]
    exact beq_self_eq_true _

/-- Witness for C4: a concrete two-entry document and its swap, plus a
two-element parameter list and its swap. -/
theorem C4_grouping_order_independence_witness :
    (([⟨"foo.spend", none, none, none, some "43aabbcc", none⟩,
       ⟨"foo.mint", none, none, none, some "43aabbcc", none⟩] : List ValidatorAst).Perm
      [⟨"foo.mint", none, none, none, some "43aabbcc", none⟩,
       ⟨"foo.spend", none, none, none, some "43aabbcc", none⟩] ∧
     ((∃ pv e, lookupA (parseAikenBlueprintStrict
          ⟨⟨"t", "1", "v3", "aiken", "1", none, none⟩,
           [⟨"foo.spend", none, none, none, some "43aabbcc", none⟩,
            ⟨"foo.mint", none, none, none, some "43aabbcc", none⟩], none⟩).validators
          "foo" = some pv ∧ (("mint" : String), e) ∈ pv.purposes) ↔
      (∃ pv e, lookupA (parseAikenBlueprintStrict
          ⟨⟨"t", "1", "v3", "aiken", "1", none, none⟩,
           [⟨"foo.mint", none, none, none, some "43aabbcc", none⟩,
            ⟨"foo.spend", none, none, none, some "43aabbcc", none⟩], none⟩).validators
          "foo" = some pv ∧ (("mint" : String), e) ∈ pv.purposes))) ∧
    (lookupA (parseAikenBlueprintStrict
        ⟨⟨"t", "1", "v3", "aiken", "1", none, none⟩,
         [⟨"foo.spend", none, none, none, some "43aabbcc", none⟩,
          ⟨"foo.mint", none, none, none, some "43aabbdd", none⟩], none⟩).validators
        "foo" =
      some ⟨"foo", [], some "43aabbcc", none,
        [("spend", ⟨none, none⟩), ("mint", ⟨none, none⟩)]⟩ ∧
     (∃ pre v post,
        ([⟨"foo.spend", none, none, none, some "43aabbcc", none⟩,
          ⟨"foo.mint", none, none, none, some "43aabbdd", none⟩] : List ValidatorAst) =
          pre ++ v :: post ∧
        (splitBaseAndPurpose v.title).purpose.isSome = true ∧
        (splitBaseAndPurpose v.title).base = "foo" ∧
        (∀ w ∈ pre, ¬((splitBaseAndPurpose w.title).purpose.isSome = true ∧
          (splitBaseAndPurpose w.title).base = "foo")) ∧
        (⟨"foo", [], some "43aabbcc", none,
          [("spend", ⟨none, none⟩), ("mint", ⟨none, none⟩)]⟩ : ParsedValidatorR).parameters =
          extractParameters v.parameters ∧
        (⟨"foo", [], some "43aabbcc", none,
          [("spend", ⟨none, none⟩), ("mint", ⟨none, none⟩)]⟩ : ParsedValidatorR).compiledCode =
          v.compiledCode ∧
        (⟨"foo", [], some "43aabbcc", none,
          [("spend", ⟨none, none⟩), ("mint", ⟨none, none⟩)]⟩ : ParsedValidatorR).hash = v.hash)) ∧
    (([⟨"a", .obj [("dataType", .str "integer")]⟩, ⟨"b", .obj [("dataType", .str "bytes")]⟩] :
        List ParamAst).Perm
      [⟨"b", .obj [("dataType", .str "bytes")]⟩, ⟨"a", .obj [("dataType", .str "integer")]⟩] ∧
     sameParamSets
      (some [⟨"a", .obj [("dataType", .str "integer")]⟩, ⟨"b", .obj [("dataType", .str "bytes")]⟩])
      (some [⟨"b", .obj [("dataType", .str "bytes")]⟩, ⟨"a", .obj [("dataType", .str "integer")]⟩]) =
      true) :=
  ⟨⟨List.Perm.swap _ _ _,
    C4_grouping_order_independence.1
      ⟨⟨"t", "1", "v3", "aiken", "1", none, none⟩,
       [⟨"foo.spend", none, none, none, some "43aabbcc", none⟩,
        ⟨"foo.mint", none, none, none, some "43aabbcc", none⟩], none⟩
      ⟨⟨"t", "1", "v3", "aiken", "1", none, none⟩,
       [⟨"foo.mint", none, none, none, some "43aabbcc", none⟩,
        ⟨"foo.spend", none, none, none, some "43aabbcc", none⟩], none⟩
      (List.Perm.swap _ _ _) "foo" "mint"⟩,
   ⟨rfl,
    C4_grouping_order_independence.2.1
      ⟨⟨"t", "1", "v3", "aiken", "1", none, none⟩,
       [⟨"foo.spend", none, none, none, some "43aabbcc", none⟩,
        ⟨"foo.mint", none, none, none, some "43aabbdd", none⟩], none⟩
      "foo" ⟨"foo", [], some "43aabbcc", none,
        [("spend", ⟨none, none⟩), ("mint", ⟨none, none⟩)]⟩ rfl⟩,
   ⟨List.Perm.swap _ _ _,
    C4_grouping_order_independence.2.2 _ _ (List.Perm.swap _ _ _)⟩⟩

/- Equality-guard lemmas (for C3 and C6). -/

/-- Unfolding of `validateAikenBlueprint` on structural success. -/
theorem validate_ok_case {raw : JsValue} {ast : BlueprintAst}
    (h : structParse raw = .ok ast) :
    validateAikenBlueprint raw =
      if (equalityGuards ast raw).isEmpty then .ok ast
      else .err (equalityGuards ast raw) := by
  unfold validateAikenBlueprint
  rw [h]

/-- Unfolding of `validateAikenBlueprint` on structural failure. -/
theorem validate_err_case {raw : JsValue} {issues : List Issue}
    (h : structParse raw = .error issues) :
    validateAikenBlueprint raw =
      .err (issues.map (fun i => ⟨formatPathUsingTitles i.path raw, i.message, i.code⟩)) := by
  unfold validateAikenBlueprint
  rw [h]

/-- Identical parameter lists always compare equal. -/
theorem sameParamSets_refl (x : Option (List ParamAst)) : sameParamSets x x = true := by
  unfold sameParamSets
  exact beq_self_eq_true _

/-- The equality pass of a two-entry single-base document reduces to the
three comparisons of the second entry against the first. -/
theorem equalityGuards_two {ast : BlueprintAst} (raw : JsValue)
    {v₁ v₂ : ValidatorAst} {b p₁ p₂ : String}
    (hv : ast.validators = [v₁, v₂])
    (h₁ : splitBaseAndPurpose v₁.title = ⟨b, some p₁, false⟩)
    (h₂ : splitBaseAndPurpose v₂.title = ⟨b, some p₂, false⟩) :
    equalityGuards ast raw = perItemErrors raw b v₁ (1, v₂) := by
  unfold equalityGuards groupByBase
  rw [hv]
  have he : ([v₁, v₂] : List ValidatorAst).enum = [(0, v₁), (1, v₂)] := rfl
  rw [he]
  simp only [List.foldl_cons, List.foldl_nil, h₁, h₂]
  simp [upsertAppend]

/-- The two messages other than the `compiledCode` one differ from it. -/
theorem egMessage_hash_ne_cc (b : String) :
    (egMessage "hash" b == egMessage "compiledCode" b) = false := by
  rw [beq_eq_false_iff_ne]
  intro h
  have := congrArg String.data h
  rw [egMessage, egMessage, String.data_append, String.data_append] at this
  simp at this

theorem egMessage_params_ne_cc (b : String) :
    (egMessage "parameters" b == egMessage "compiledCode" b) = false := by
  rw [beq_eq_false_iff_ne]
  intro h
  have := congrArg String.data h
  rw [egMessage, egMessage, String.data_append, String.data_append] at this
  simp at this

/-- Filtering drops an optional singleton whose element fails the predicate. -/
theorem filter_ite_singleton_nil {p : VError → Bool} {c : Prop} [Decidable c] {x : VError}
    (hx : p x = false) : ((if c then [x] else [] : List VError).filter p) = [] := by
  split
  · simp [List.filter, hx]
  · rfl

/-- C3: for a structurally valid document whose validators are exactly two
purpose-suffixed entries of one base: differing `compiledCode` yields
exactly one EQUALITY_GUARD error for that pair (the one naming
compiledCode); identical compiledCode, hash and parameters yield no
EQUALITY_GUARD error (the result is clean). -/
theorem C3_equality_guard_pair :
    ∀ (raw : JsValue) (ast : BlueprintAst) (v₁ v₂ : ValidatorAst) (b p₁ p₂ : String),
      structParse raw = .ok ast →
      ast.validators = [v₁, v₂] →
      splitBaseAndPurpose v₁.title = ⟨b, some p₁, false⟩ →
      splitBaseAndPurpose v₂.title = ⟨b, some p₂, false⟩ →
      (v₁.compiledCode ≠ v₂.compiledCode →
        ((errorsOf (validateAikenBlueprint raw)).filter
          (fun e => e.code == "EQUALITY_GUARD" &&
            e.message == egMessage "compiledCode" b)).length = 1) ∧
      (v₁.compiledCode = v₂.compiledCode → v₁.hash = v₂.hash →
        v₁.parameters = v₂.parameters →
        errorsOf (validateAikenBlueprint raw) = []) := by
  intro raw ast v₁ v₂ b p₁ p₂ hstruct hv h₁ h₂
  have heg := equalityGuards_two raw hv h₁ h₂
  constructor
  · intro hcc
    have hegval : equalityGuards ast raw =
        ⟨formatPathUsingTitles [.key "validators", .idx 1, .key "compiledCode"] raw,
          egMessage "compiledCode" b, "EQUALITY_GUARD"⟩ ::
        ((if v₁.hash ≠ v₂.hash then
            [⟨formatPathUsingTitles [.key "validators", .idx 1, .key "hash"] raw,
              egMessage "hash" b, "EQUALITY_GUARD"⟩] else []) ++
          (if !sameParamSets v₁.parameters v₂.parameters then
            [⟨formatPathUsingTitles [.key "validators", .idx 1, .key "parameters"] raw,
              egMessage "parameters" b, "EQUALITY_GUARD"⟩] else [])) := by
      rw [heg]
      unfold perItemErrors
      rw [if_pos hcc]
      rfl
    have hval : validateAikenBlueprint raw = .err (equalityGuards ast raw) := by
      rw [validate_ok_case hstruct, if_neg (by rw [hegval]; simp)]
    rw [hval]
    simp only [errorsOf]
    rw [hegval]
    rw [show ∀ (x : VError) (l : List VError), x :: l = [x] ++ l from fun x l => rfl]
    rw [List.filter_append, List.filter_append]
    rw [filter_ite_singleton_nil (by simp [egMessage_hash_ne_cc]),
      filter_ite_singleton_nil (by simp [egMessage_params_ne_cc])]
    simp [List.filter]
  · intro hcc hh hp
    have hegnil : equalityGuards ast raw = [] := by
      rw [heg]
      unfold perItemErrors
      rw [if_neg (by simp [hcc]), if_neg (by simp [hh]),
        if_neg (by rw [hp]; simp [sameParamSets_refl])]
      rfl
    rw [validate_ok_case hstruct, hegnil]
    rfl

/-- Witness for C3: concrete two-entry documents, one with drifting
compiledCode and one with identical shared fields. -/
theorem C3_equality_guard_pair_witness :
    (structParse (sampleDoc [sampleVal "foo.spend" "43aabbcc", sampleVal "foo.mint" "43aabbdd"]) =
        .ok ⟨⟨"t", "1", "v3", "aiken", "1", none, none⟩,
          [⟨"foo.spend", none, none, none, some "43aabbcc", none⟩,
           ⟨"foo.mint", none, none, none, some "43aabbdd", none⟩], none⟩ ∧
      (some "43aabbcc" : Option String) ≠ some "43aabbdd" ∧
      ((errorsOf (validateAikenBlueprint
          (sampleDoc [sampleVal "foo.spend" "43aabbcc", sampleVal "foo.mint" "43aabbdd"]))).filter
        (fun e => e.code == "EQUALITY_GUARD" &&
          e.message == egMessage "compiledCode" "foo")).length = 1) ∧
    (structParse (sampleDoc [sampleVal "foo.spend" "43aabbcc", sampleVal "foo.mint" "43aabbcc"]) =
        .ok ⟨⟨"t", "1", "v3", "aiken", "1", none, none⟩,
          [⟨"foo.spend", none, none, none, some "43aabbcc", none⟩,
           ⟨"foo.mint", none, none, none, some "43aabbcc", none⟩], none⟩ ∧
      errorsOf (validateAikenBlueprint
        (sampleDoc [sampleVal "foo.spend" "43aabbcc", sampleVal "foo.mint" "43aabbcc"])) = []) :=
  ⟨⟨rfl, by decide,
    (C3_equality_guard_pair
      (sampleDoc [sampleVal "foo.spend" "43aabbcc", sampleVal "foo.mint" "43aabbdd"])
      ⟨⟨"t", "1", "v3", "aiken", "1", none, none⟩,
        [⟨"foo.spend", none, none, none, some "43aabbcc", none⟩,
         ⟨"foo.mint", none, none, none, some "43aabbdd", none⟩], none⟩
      ⟨"foo.spend", none, none, none, some "43aabbcc", none⟩
      ⟨"foo.mint", none, none, none, some "43aabbdd", none⟩
      "foo" "spend" "mint" rfl rfl rfl rfl).1 (by decide)⟩,
   ⟨rfl,
    (C3_equality_guard_pair
      (sampleDoc [sampleVal "foo.spend" "43aabbcc", sampleVal "foo.mint" "43aabbcc"])
      ⟨⟨"t", "1", "v3", "aiken", "1", none, none⟩,
        [⟨"foo.spend", none, none, none, some "43aabbcc", none⟩,
         ⟨"foo.mint", none, none, none, some "43aabbcc", none⟩], none⟩
      ⟨"foo.spend", none, none, none, some "43aabbcc", none⟩
      ⟨"foo.mint", none, none, none, some "43aabbcc", none⟩
      "foo" "spend" "mint" rfl rfl rfl rfl).2 rfl rfl rfl⟩⟩

/-- C6 counterexample: a document with both a structural violation (an
unknown top-level key) and a compiledCode drift between `foo.spend` and
`foo.mint` reports ONLY the structural errors — no EQUALITY_GUARD error
appears, although the same validators in a structurally valid document do
produce one.  The claim that guard errors are reported in addition to the
structural errors is false: the equality pass runs only after structural
success. -/
theorem C6_counterexample_struct_failure_suppresses_guards :
    (structParse (.obj [("preamble", samplePre),
      ("validators", .arr [sampleVal "foo.spend" "43aabbcc", sampleVal "foo.mint" "43aabbdd"]),
      ("extra", .null)])).isOk = false ∧
    errorsOf (validateAikenBlueprint (.obj [("preamble", samplePre),
      ("validators", .arr [sampleVal "foo.spend" "43aabbcc", sampleVal "foo.mint" "43aabbdd"]),
      ("extra", .null)])) ≠ [] ∧
    (errorsOf (validateAikenBlueprint (.obj [("preamble", samplePre),
      ("validators", .arr [sampleVal "foo.spend" "43aabbcc", sampleVal "foo.mint" "43aabbdd"]),
      ("extra", .null)]))).filter (fun e => e.code == "EQUALITY_GUARD") = [] ∧
    (errorsOf (validateAikenBlueprint
      (sampleDoc [sampleVal "foo.spend" "43aabbcc", sampleVal "foo.mint" "43aabbdd"]))).filter
      (fun e => e.code == "EQUALITY_GUARD") ≠ [] :=
  ⟨rfl, by decide, by decide, by decide⟩

/-- C6 amended: equality-guard errors are reported only when the structural
pass succeeds (a structurally invalid document yields exactly the formatted
structural issues, so the equality pass does not run); within the equality
pass itself, every base is evaluated independently: each later entry whose
compiledCode drifts from its base's first entry contributes an
EQUALITY_GUARD error naming that base, regardless of other bases. -/
theorem C6_guards_after_structural_pass :
    (∀ (raw : JsValue) (issues : List Issue), structParse raw = .error issues →
      validateAikenBlueprint raw =
        .err (issues.map (fun i => ⟨formatPathUsingTitles i.path raw, i.message, i.code⟩))) ∧
    (∀ (raw : JsValue) (ast : BlueprintAst), structParse raw = .ok ast →
      validateAikenBlueprint raw =
        if (equalityGuards ast raw).isEmpty then .ok ast
        else .err (equalityGuards ast raw)) ∧
    (∀ (ast : BlueprintAst) (raw : JsValue) (base : String)
      (first it : Nat × ValidatorAst) (rest : List (Nat × ValidatorAst)),
      (base, first :: rest) ∈ groupByBase ast.validators.enum →
      it ∈ rest →
      first.2.compiledCode ≠ it.2.compiledCode →
      ∃ e ∈ equalityGuards ast raw,
        e.code = "EQUALITY_GUARD" ∧ e.message = egMessage "compiledCode" base) := by
  refine ⟨?_, ?_, ?_⟩
  · intro raw issues h
    exact validate_err_case h
  · intro raw ast h
    exact validate_ok_case h
  · intro ast raw base first it rest hg hit hcc
    rcases rest with _ | ⟨r₀, rrest⟩
    · exact absurd hit (List.not_mem_nil it)
    refine ⟨⟨formatPathUsingTitles [.key "validators", .idx it.1, .key "compiledCode"] raw,
      egMessage "compiledCode" base, "EQUALITY_GUARD"⟩, ?_, rfl, rfl⟩
    unfold equalityGuards
    rw [List.mem_flatten]
    refine ⟨((r₀ :: rrest).map (perItemErrors raw base first.2)).flatten, ?_, ?_⟩
    · exact List.mem_map_of_mem _ hg
    · rw [List.mem_flatten]
      refine ⟨perItemErrors raw base first.2 it, List.mem_map_of_mem _ hit, ?_⟩
      unfold perItemErrors
      rw [if_pos hcc]
      exact List.mem_append.mpr (Or.inl (List.mem_cons_self _ _))

/-- Witness for C6 amended: a failing document for part 1, a passing
document for part 2, and a two-base drifting AST showing both bases report
independently for part 3. -/
theorem C6_guards_after_structural_pass_witness :
    (structParse JsValue.null = .error [⟨[], "invalid_type", "Expected object"⟩] ∧
      validateAikenBlueprint JsValue.null =
        .err (([(⟨[], "invalid_type", "Expected object"⟩ : Issue)]).map
          (fun i => ⟨formatPathUsingTitles i.path JsValue.null, i.message, i.code⟩))) ∧
    (structParse (sampleDoc [sampleVal "foo.spend" "43aabbcc"]) =
        .ok ⟨⟨"t", "1", "v3", "aiken", "1", none, none⟩,
          [⟨"foo.spend", none, none, none, some "43aabbcc", none⟩], none⟩ ∧
      validateAikenBlueprint (sampleDoc [sampleVal "foo.spend" "43aabbcc"]) =
        if (equalityGuards
            ⟨⟨"t", "1", "v3", "aiken", "1", none, none⟩,
              [⟨"foo.spend", none, none, none, some "43aabbcc", none⟩], none⟩
            (sampleDoc [sampleVal "foo.spend" "43aabbcc"])).isEmpty then
          .ok ⟨⟨"t", "1", "v3", "aiken", "1", none, none⟩,
            [⟨"foo.spend", none, none, none, some "43aabbcc", none⟩], none⟩
        else .err (equalityGuards
          ⟨⟨"t", "1", "v3", "aiken", "1", none, none⟩,
            [⟨"foo.spend", none, none, none, some "43aabbcc", none⟩], none⟩
          (sampleDoc [sampleVal "foo.spend" "43aabbcc"]))) ∧
    ((some "4301aa" : Option String) ≠ some "4302aa" ∧
      (∃ e ∈ equalityGuards
          ⟨⟨"t", "1", "v3", "aiken", "1", none, none⟩,
            [⟨"a.spend", none, none, none, some "4301aa", none⟩,
             ⟨"a.mint", none, none, none, some "4302aa", none⟩,
             ⟨"b.spend", none, none, none, some "4303aa", none⟩,
             ⟨"b.mint", none, none, none, some "4304aa", none⟩], none⟩ JsValue.null,
        e.code = "EQUALITY_GUARD" ∧ e.message = egMessage "compiledCode" "a") ∧
      (∃ e ∈ equalityGuards
          ⟨⟨"t", "1", "v3", "aiken", "1", none, none⟩,
            [⟨"a.spend", none, none, none, some "4301aa", none⟩,
             ⟨"a.mint", none, none, none, some "4302aa", none⟩,
             ⟨"b.spend", none, none, none, some "4303aa", none⟩,
             ⟨"b.mint", none, none, none, some "4304aa", none⟩], none⟩ JsValue.null,
        e.code = "EQUALITY_GUARD" ∧ e.message = egMessage "compiledCode" "b")) :=
  ⟨⟨rfl, C6_guards_after_structural_pass.1 JsValue.null [⟨[], "invalid_type", "Expected object"⟩] rfl⟩,
   ⟨rfl, C6_guards_after_structural_pass.2.1 (sampleDoc [sampleVal "foo.spend" "43aabbcc"])
      ⟨⟨"t", "1", "v3", "aiken", "1", none, none⟩,
        [⟨"foo.spend", none, none, none, some "43aabbcc", none⟩], none⟩ rfl⟩,
   ⟨by decide,
    C6_guards_after_structural_pass.2.2
      ⟨⟨"t", "1", "v3", "aiken", "1", none, none⟩,
        [⟨"a.spend", none, none, none, some "4301aa", none⟩,
         ⟨"a.mint", none, none, none, some "4302aa", none⟩,
         ⟨"b.spend", none, none, none, some "4303aa", none⟩,
         ⟨"b.mint", none, none, none, some "4304aa", none⟩], none⟩ JsValue.null "a"
      (0, ⟨"a.spend", none, none, none, some "4301aa", none⟩)
      (1, ⟨"a.mint", none, none, none, some "4302aa", none⟩)
      [(1, ⟨"a.mint", none, none, none, some "4302aa", none⟩)]
      (List.mem_cons_self _ _) (List.mem_singleton.mpr rfl) (by decide),
    C6_guards_after_structural_pass.2.2
      ⟨⟨"t", "1", "v3", "aiken", "1", none, none⟩,
        [⟨"a.spend", none, none, none, some "4301aa", none⟩,
         ⟨"a.mint", none, none, none, some "4302aa", none⟩,
         ⟨"b.spend", none, none, none, some "4303aa", none⟩,
         ⟨"b.mint", none, none, none, some "4304aa", none⟩], none⟩ JsValue.null "b"
      (2, ⟨"b.spend", none, none, none, some "4303aa", none⟩)
      (3, ⟨"b.mint", none, none, none, some "4304aa", none⟩)
      [(3, ⟨"b.mint", none, none, none, some "4304aa", none⟩)]
      (List.mem_cons_of_mem _ (List.mem_cons_self _ _)) (List.mem_singleton.mpr rfl)
      (by decide)⟩⟩

/-- The tuple-form map entry loop accepts when every key and value passes. -/
theorem checkMapEntries_all_ok (check : JsValue → JsValue → Option CheckR)
    (keysS valuesS : JsValue) :
    ∀ (entries : List (String × JsValue)) (i : Nat),
      (∀ p ∈ entries,
        check keysS (.str p.1) = some .ok ∧ check valuesS p.2 = some .ok) →
      checkMapEntries check keysS valuesS
        (entries.map (fun p => .arr [.str p.1, p.2])) i = some .ok := by
  intro entries
  induction entries with
  | nil => intro i _; rfl
  | cons p rest ih =>
    obtain ⟨k, v⟩ := p
    intro i h
    obtain ⟨hk, hv⟩ := h (k, v) (List.mem_cons_self _ _)
    simp only [List.map_cons, checkMapEntries, hk, hv]
    exact ih (i + 1) (fun q hq => h q (List.mem_cons_of_mem _ hq))

/-- The object-form map entry loop accepts when every key and value passes. -/
theorem checkMapObj_all_ok (check : JsValue → JsValue → Option CheckR)
    (keysS valuesS : JsValue) :
    ∀ (entries : List (String × JsValue)),
      (∀ p ∈ entries,
        check keysS (.str p.1) = some .ok ∧ check valuesS p.2 = some .ok) →
      checkMapObj check keysS valuesS entries = some .ok := by
  intro entries
  induction entries with
  | nil => intro _; rfl
  | cons p rest ih =>
    obtain ⟨k, v⟩ := p
    intro h
    obtain ⟨hk, hv⟩ := h (k, v) (List.mem_cons_self _ _)
    simp only [checkMapObj, hk, hv]
    exact ih (fun q hq => h q (List.mem_cons_of_mem _ hq))

/-- A non-ref, non-empty node with `dataType: "map"` dispatches to the map
body. -/
theorem checkStep_map (defs : Defs) (cfg : CheckCfg)
    (check : JsValue → JsValue → Option CheckR) (node value : JsValue)
    (hr : refString node = none) (he : isEmptySchemaNode node = false)
    (hdt : getField node "dataType" = some (.str "map")) :
    checkStep defs cfg check node value = mapCheck check cfg node value := by
  simp only [checkStep, hr, he, Bool.false_eq_true, if_false, checkInline, hdt]
  rw [if_neg (by decide : ¬ (startsWithHash "map" = true))]
  rw [if_neg (by decide : ¬ (("map" : String) = "integer"))]
  rw [if_neg (by decide : ¬ (("map" : String) = "bytes"))]
  rw [if_neg (by decide : ¬ (("map" : String) = "list"))]
  rw [if_pos trivial]

/-- Tuple-form values go through `checkMapEntries`. -/
theorem mapCheck_arr (check : JsValue → JsValue → Option CheckR) (cfg : CheckCfg)
    (node : JsValue) (entries : List JsValue) :
    mapCheck check cfg node (.arr entries) =
      checkMapEntries check ((getField node "keys").getD .undef)
        ((getField node "values").getD .undef) entries 0 := rfl

/-- Object-form values fail outright when `mapAccepts` is `array-tuples`. -/
theorem mapCheck_obj_tuples (check : JsValue → JsValue → Option CheckR) (u : UnitAcc)
    (node : JsValue) (fs : List (String × JsValue)) :
    mapCheck check ⟨u, MapAcc.arrayTuples⟩ node (.obj fs) =
      some (.fail "Expected map") := rfl

/-- Object-form values go through `checkMapObj` when `mapAccepts` is `both`. -/
theorem mapCheck_obj_both (check : JsValue → JsValue → Option CheckR) (u : UnitAcc)
    (node : JsValue) (fs : List (String × JsValue)) :
    mapCheck check ⟨u, MapAcc.both⟩ node (.obj fs) =
      checkMapObj check ((getField node "keys").getD .undef)
        ((getField node "values").getD .undef) fs := rfl

/-- C7: for a map schema node whose key and value schemas the entries
satisfy (at the remaining recursion depth), validateParameterValue accepts
the content presented as an array of [key, value] tuples under the default
configuration; the same content presented as a plain object fails under the
default configuration but is accepted under mapAccepts "both"; and the
defaults are unitAccepts "both", mapAccepts "array-tuples" (an omitted
configuration merges to exactly those defaults). -/
theorem C7_map_duality (n : Nat) (defs : Defs) (node : JsValue)
    (entries : List (String × JsValue))
    (hr : refString node = none)
    (he : isEmptySchemaNode node = false)
    (hdt : getField node "dataType" = some (.str "map"))
    (hsat1 : ∀ p ∈ entries,
      checkNodeF defs DEFAULT_CFG n ((getField node "keys").getD .undef)
          (.str p.1) = some .ok ∧
      checkNodeF defs DEFAULT_CFG n ((getField node "values").getD .undef)
          p.2 = some .ok)
    (hsat2 : ∀ p ∈ entries,
      checkNodeF defs ⟨UnitAcc.both, MapAcc.both⟩ n
          ((getField node "keys").getD .undef) (.str p.1) = some .ok ∧
      checkNodeF defs ⟨UnitAcc.both, MapAcc.both⟩ n
          ((getField node "values").getD .undef) p.2 = some .ok) :
    validateParameterValueF (n + 1) node
      (.arr (entries.map (fun p => .arr [.str p.1, p.2]))) (some defs)
      ⟨none, none⟩ = some .ok ∧
    validateParameterValueF (n + 1) node (.obj entries) (some defs)
      ⟨none, none⟩ = some (.fail "Expected map") ∧
    validateParameterValueF (n + 1) node (.obj entries) (some defs)
      ⟨none, some MapAcc.both⟩ = some .ok ∧
    DEFAULT_CFG = ⟨UnitAcc.both, MapAcc.arrayTuples⟩ ∧
    mergeCfg ⟨none, none⟩ = DEFAULT_CFG := by
  refine ⟨?_, ?_, ?_, rfl, rfl⟩
  · show checkNodeF defs DEFAULT_CFG (n + 1) node _ = some CheckR.ok
    rw [checkNodeF_succ, checkStep_map defs DEFAULT_CFG _ node _ hr he hdt,
      mapCheck_arr]
    exact checkMapEntries_all_ok _ _ _ entries 0 hsat1
  · show checkNodeF defs DEFAULT_CFG (n + 1) node (.obj entries) =
      some (CheckR.fail "Expected map")
    rw [checkNodeF_succ, checkStep_map defs DEFAULT_CFG _ node _ hr he hdt]
    exact mapCheck_obj_tuples _ UnitAcc.both node entries
  · show checkNodeF defs ⟨UnitAcc.both, MapAcc.both⟩ (n + 1) node
      (.obj entries) = some CheckR.ok
    rw [checkNodeF_succ,
      checkStep_map defs ⟨UnitAcc.both, MapAcc.both⟩ _ node _ hr he hdt,
      mapCheck_obj_both]
    exact checkMapObj_all_ok _ _ _ entries hsat2

/-- Witness for C7 at the spec's example: content key "k", value 1, key
schema #string, value schema #integer. -/
theorem C7_map_duality_witness :
    validateParameterValueF 2
      (.obj [("dataType", .str "map"),
        ("keys", .obj [("dataType", .str "#string")]),
        ("values", .obj [("dataType", .str "#integer")])])
      (.arr [.arr [.str "k", .int 1]]) (some []) ⟨none, none⟩ = some .ok ∧
    validateParameterValueF 2
      (.obj [("dataType", .str "map"),
        ("keys", .obj [("dataType", .str "#string")]),
        ("values", .obj [("dataType", .str "#integer")])])
      (.obj [("k", .int 1)]) (some []) ⟨none, none⟩ =
        some (.fail "Expected map") ∧
    validateParameterValueF 2
      (.obj [("dataType", .str "map"),
        ("keys", .obj [("dataType", .str "#string")]),
        ("values", .obj [("dataType", .str "#integer")])])
      (.obj [("k", .int 1)]) (some []) ⟨none, some MapAcc.both⟩ = some .ok := by
  have h := C7_map_duality 1 []
    (.obj [("dataType", .str "map"),
      ("keys", .obj [("dataType", .str "#string")]),
      ("values", .obj [("dataType", .str "#integer")])])
    [("k", .int 1)] rfl rfl rfl
    (fun p hp => by
      rw [List.mem_singleton] at hp
      subst hp
      exact ⟨rfl, rfl⟩)
    (fun p hp => by
      rw [List.mem_singleton] at hp
      subst hp
      exact ⟨rfl, rfl⟩)
  exact ⟨h.1, h.2.1, h.2.2.1⟩

/-- A found alternative is a member and its `index` equals the tag. -/
theorem findAlt_eq_some (c : Int) :
    ∀ (alts : List JsValue) (alt : JsValue),
      findAlt (.int c) alts = some alt →
      alt ∈ alts ∧ getField alt "index" = some (.int c) := by
  intro alts
  induction alts with
  | nil => intro alt h; cases h
  | cons b rest ih =>
    intro alt h
    simp only [findAlt] at h
    split at h
    next i heq =>
      by_cases hic : i = c
      · subst hic
        rw [if_pos (by simp [jsNumEq])] at h
        injection h with h
        subst h
        exact ⟨List.mem_cons_self _ _, heq⟩
      · rw [if_neg (by simp [jsNumEq, hic])] at h
        obtain ⟨hm, hi⟩ := ih alt h
        exact ⟨List.mem_cons_of_mem _ hm, hi⟩
    next i heq =>
      rw [if_neg (by simp [jsNumEq])] at h
      obtain ⟨hm, hi⟩ := ih alt h
      exact ⟨List.mem_cons_of_mem _ hm, hi⟩
    next =>
      obtain ⟨hm, hi⟩ := ih alt h
      exact ⟨List.mem_cons_of_mem _ hm, hi⟩

/-- When every alternative has an integral index, a non-integral tag never
finds one. -/
theorem findAlt_nonint_of_all_int (x : Nat) :
    ∀ alts : List JsValue,
      (∀ a ∈ alts, ∃ i : Int, getField a "index" = some (.int i)) →
      findAlt (.nonint x) alts = none := by
  intro alts
  induction alts with
  | nil => intro _; rfl
  | cons b rest ih =>
    intro h
    obtain ⟨i, hi⟩ := h b (List.mem_cons_self _ _)
    simp only [findAlt, hi, jsNumEq, Bool.false_eq_true, if_false]
    exact ih (fun a ha => h a (List.mem_cons_of_mem _ ha))

/-- Under distinct integral indices, the found alternative is the only
member whose index equals the tag. -/
theorem findAlt_unique (c : Int) :
    ∀ (alts : List JsValue),
      (∀ a ∈ alts, ∃ i : Int, getField a "index" = some (.int i)) →
      (alts.filterMap altIndex).Nodup →
      ∀ (alt a : JsValue), findAlt (.int c) alts = some alt →
        a ∈ alts → getField a "index" = some (.int c) → a = alt := by
  intro alts
  induction alts with
  | nil => intro _ _ alt a hfind; cases hfind
  | cons b rest ih =>
    intro hwf hnd alt a hfind hmem hidx
    obtain ⟨i, hbi⟩ := hwf b (List.mem_cons_self _ _)
    have hfm : (b :: rest).filterMap altIndex = i :: rest.filterMap altIndex := by
      simp [List.filterMap_cons, altIndex, hbi]
    rw [hfm] at hnd
    have hnotin : i ∉ rest.filterMap altIndex := (List.nodup_cons.mp hnd).1
    have hndr : (rest.filterMap altIndex).Nodup := (List.nodup_cons.mp hnd).2
    simp only [findAlt, hbi] at hfind
    by_cases hic : i = c
    · rw [if_pos (by simp [jsNumEq, hic])] at hfind
      injection hfind with hba
      subst hba
      rcases List.mem_cons.mp hmem with rfl | hmr
      · rfl
      · exact absurd (List.mem_filterMap.mpr ⟨a, hmr, by simp [altIndex, hidx, hic]⟩)
          hnotin
    · rw [if_neg (by simp [jsNumEq, hic])] at hfind
      rcases List.mem_cons.mp hmem with rfl | hmr
      · exfalso
        rw [hbi] at hidx
        injection hidx with h1
        injection h1 with h2
        exact hic h2
      · exact ih (fun y hy => hwf y (List.mem_cons_of_mem _ hy)) hndr alt a hfind
          hmr hidx

/-- With matching lengths, the positional field loop succeeds exactly when
every (expected schema, field value) pair passes. -/
theorem checkFields_ok_iff (check : JsValue → JsValue → Option CheckR) :
    ∀ (es fs : List JsValue) (i : Nat), es.length = fs.length →
      (checkFields check es fs i = some .ok ↔
        ∀ p ∈ es.zip fs, check p.1 p.2 = some .ok) := by
  intro es
  induction es with
  | nil =>
    intro fs i hlen
    have hfs : fs = [] := List.length_eq_zero.mp hlen.symm
    subst hfs
    simp [checkFields]
  | cons e es ih =>
    intro fs i hlen
    cases fs with
    | nil => simp at hlen
    | cons f fs =>
      have hlen' : es.length = fs.length := by simpa using hlen
      rcases hef : check e f with _ | r
      · simp only [checkFields, hef]
        constructor
        · intro h; cases h
        · intro h
          have hh := h (e, f) (by rw [List.zip_cons_cons]; exact List.mem_cons_self _ _)
          rw [hef] at hh
          cases hh
      · cases r with
        | ok =>
          simp only [checkFields, hef]
          rw [ih fs (i + 1) hlen']
          constructor
          · intro h p hp
            rw [List.zip_cons_cons] at hp
            rcases List.mem_cons.mp hp with rfl | hp
            · exact hef
            · exact h p hp
          · intro h p hp
            exact h p (by rw [List.zip_cons_cons]; exact List.mem_cons_of_mem _ hp)
        | fail m =>
          simp only [checkFields, hef]
          constructor
          · intro h; exact absurd h (by simp)
          · intro h
            have hh := h (e, f) (by rw [List.zip_cons_cons]; exact List.mem_cons_self _ _)
            rw [hef] at hh
            exact absurd hh (by simp)

/-- Acceptance of the constructor body, characterized (all alternatives
assumed to carry integral indices). -/
theorem ctorCheck_ok_iff (check : JsValue → JsValue → Option CheckR)
    (alts : List JsValue) (value : JsValue)
    (hwf : ∀ a ∈ alts, ∃ i : Int, getField a "index" = some (.int i)) :
    ctorCheck check alts value = some .ok ↔
      ∃ (c : Int) (fieldVals : List JsValue) (alt : JsValue),
        isPlainObject value = true ∧
        getField value "constructor" = some (.int c) ∧
        getField value "fields" = some (.arr fieldVals) ∧
        findAlt (.int c) alts = some alt ∧
        fieldVals.length = (altFields alt).length ∧
        checkFields check (altFields alt) fieldVals 0 = some .ok := by
  constructor
  · intro h
    simp only [ctorCheck] at h
    split at h
    · next hcond =>
      rw [Bool.and_eq_true, Bool.and_eq_true] at hcond
      obtain ⟨⟨hobj, hnum⟩, hfld⟩ := hcond
      split at h
      · next ctorV fieldVals heq₁ heq₂ =>
        rw [heq₁] at hnum
        have hshape : (∃ c : Int, ctorV = JsValue.int c) ∨
            (∃ x : Nat, ctorV = JsValue.nonint x) := by
          cases ctorV <;>
            first
            | exact Or.inl ⟨_, rfl⟩
            | exact Or.inr ⟨_, rfl⟩
            | (exfalso; simp at hnum)
        rcases hshape with ⟨c, rfl⟩ | ⟨x, rfl⟩
        · split at h
          · next => simp at h
          · next alt hfa =>
            split at h
            · next => simp at h
            · next hne =>
              exact ⟨c, fieldVals, alt, hobj, heq₁, heq₂, hfa, not_not.mp hne, h⟩
        · rw [findAlt_nonint_of_all_int x alts hwf] at h
          simp at h
      · next => simp at h
    · next => simp at h
  · rintro ⟨c, fieldVals, alt, hobj, hc, hf, hfa, hlen, hchk⟩
    have hctor : (isPlainObject value &&
        (match getField value "constructor" with
         | some (.int _) => true
         | some (.nonint _) => true
         | _ => false) &&
        (match getField value "fields" with
         | some (.arr _) => true
         | _ => false)) = true := by
      simp [hobj, hc, hf]
    simp only [ctorCheck, hctor, if_true]
    simp only [hc, hf, hfa]
    rw [if_neg (by simp [hlen])]
    exact hchk

/-- A non-ref, non-empty node without `dataType` but with an `anyOf` list
dispatches to the constructor body. -/
theorem checkStep_anyOf (defs : Defs) (cfg : CheckCfg)
    (check : JsValue → JsValue → Option CheckR) (node value : JsValue)
    (alts : List JsValue)
    (hr : refString node = none) (he : isEmptySchemaNode node = false)
    (hdt : getField node "dataType" = none)
    (hao : getField node "anyOf" = some (.arr alts)) :
    checkStep defs cfg check node value = ctorCheck check alts value := by
  simp only [checkStep, hr, he, Bool.false_eq_true, if_false, checkInline,
    anyOfBranchF, hdt, hao]

/-- A constructor-sum node with a single alternative: index 0 with two
field schemas (#integer then #bytes). -/
def ctorSampleNode : JsValue :=
  .obj [("anyOf", .arr [.obj [("index", .int 0),
    ("fields", .arr [.obj [("dataType", .str "#integer")],
      .obj [("dataType", .str "#bytes")]])]])]

/-- C8: on a constructor-sum node whose alternatives carry distinct
non-negative integral indices, the checker accepts a value exactly when it
is a plain object with an integral tag and an array of fields, the tag
equals the index of the (unique) found alternative, the field count equals
that alternative's field-schema count, and each field passes its schema
positionally at the remaining depth; in particular the sample node whose
index-0 alternative expects 2 fields rejects \x7bconstructor:0,
fields:[1]\x7d with an arity message and accepts \x7bconstructor:0,
fields:[1,"aa"]\x7d. -/
theorem C8_constructor_sum (n : Nat) (defs : Defs) (cfg : CheckCfg)
    (node value : JsValue) (alts : List JsValue)
    (hr : refString node = none) (he : isEmptySchemaNode node = false)
    (hdt : getField node "dataType" = none)
    (hao : getField node "anyOf" = some (.arr alts))
    (hwf : ∀ a ∈ alts, ∃ i : Int, 0 ≤ i ∧ getField a "index" = some (.int i))
    (hnd : (alts.filterMap altIndex).Nodup) :
    (checkNodeF defs cfg (n + 1) node value = some .ok ↔
      ∃ (c : Int) (fieldVals : List JsValue) (alt : JsValue),
        isPlainObject value = true ∧
        getField value "constructor" = some (.int c) ∧ 0 ≤ c ∧
        getField value "fields" = some (.arr fieldVals) ∧
        alt ∈ alts ∧ getField alt "index" = some (.int c) ∧
        findAlt (.int c) alts = some alt ∧
        (∀ a ∈ alts, getField a "index" = some (.int c) → a = alt) ∧
        fieldVals.length = (altFields alt).length ∧
        ∀ p ∈ (altFields alt).zip fieldVals,
          checkNodeF defs cfg n p.1 p.2 = some .ok) ∧
    validateParameterValueF 2 ctorSampleNode
      (.obj [("constructor", .int 0), ("fields", .arr [.int 1])]) (some [])
      ⟨none, none⟩ = some (.fail "Constructor 0 expected 2 field(s)") ∧
    validateParameterValueF 2 ctorSampleNode
      (.obj [("constructor", .int 0), ("fields", .arr [.int 1, .str "aa"])])
      (some []) ⟨none, none⟩ = some .ok := by
  refine ⟨?_, by decide, by decide⟩
  have hwf' : ∀ a ∈ alts, ∃ i : Int, getField a "index" = some (.int i) := by
    intro a ha
    obtain ⟨i, -, h2⟩ := hwf a ha
    exact ⟨i, h2⟩
  rw [checkNodeF_succ, checkStep_anyOf defs cfg _ node value alts hr he hdt hao,
    ctorCheck_ok_iff _ alts value hwf']
  constructor
  · rintro ⟨c, fieldVals, alt, hobj, hc, hf, hfa, hlen, hchk⟩
    obtain ⟨hmem, hidx⟩ := findAlt_eq_some c alts alt hfa
    obtain ⟨i, hi0, hieq⟩ := hwf alt hmem
    have hceq : i = c := by
      rw [hieq] at hidx
      injection hidx with h1
      injection h1 with h2
    exact ⟨c, fieldVals, alt, hobj, hc, hceq ▸ hi0, hf, hmem, hidx, hfa,
      fun a ha hia => findAlt_unique c alts hwf' hnd alt a hfa ha hia, hlen,
      (checkFields_ok_iff _ (altFields alt) fieldVals 0 hlen.symm).mp hchk⟩
  · rintro ⟨c, fieldVals, alt, hobj, hc, -, hf, -, -, hfa, -, hlen, hpt⟩
    exact ⟨c, fieldVals, alt, hobj, hc, hf, hfa, hlen,
      (checkFields_ok_iff _ (altFields alt) fieldVals 0 hlen.symm).mpr hpt⟩

/-- Witness for C8: the sample node accepts \x7bconstructor:0,
fields:[1,"aa"]\x7d (via the characterization) and rejects
\x7bconstructor:0, fields:[1]\x7d with the arity message. -/
theorem C8_constructor_sum_witness :
    checkNodeF [] DEFAULT_CFG 2 ctorSampleNode
      (.obj [("constructor", .int 0), ("fields", .arr [.int 1, .str "aa"])]) =
      some .ok ∧
    validateParameterValueF 2 ctorSampleNode
      (.obj [("constructor", .int 0), ("fields", .arr [.int 1])]) (some [])
      ⟨none, none⟩ = some (.fail "Constructor 0 expected 2 field(s)") := by
  have h := C8_constructor_sum 1 [] DEFAULT_CFG ctorSampleNode
    (.obj [("constructor", .int 0), ("fields", .arr [.int 1, .str "aa"])])
    [.obj [("index", .int 0),
      ("fields", .arr [.obj [("dataType", .str "#integer")],
        .obj [("dataType", .str "#bytes")]])]]
    rfl rfl rfl rfl
    (fun a ha => by
      rw [List.mem_singleton] at ha
      subst ha
      exact ⟨0, by decide, rfl⟩)
    (by decide)
  refine ⟨h.1.mpr ?_, h.2.1⟩
  refine ⟨0, [.int 1, .str "aa"],
    .obj [("index", .int 0),
      ("fields", .arr [.obj [("dataType", .str "#integer")],
        .obj [("dataType", .str "#bytes")]])],
    rfl, rfl, by decide, rfl, List.mem_singleton.mpr rfl, rfl, rfl, ?_, rfl, ?_⟩
  · intro a ha _
    rw [List.mem_singleton] at ha
    exact ha
  · intro p hp
    rcases List.mem_cons.mp hp with h1 | hp
    · subst h1; exact rfl
    · rcases List.mem_cons.mp hp with h2 | hp
      · subst h2; exact rfl
      · exact absurd hp (List.not_mem_nil p)

/- ==================================================================
C10: totality / termination of the two $ref-recursive operations.
================================================================== -/

/-- `dropPrefixChars ps l` strips the literal prefix `ps` off `l`. -/
def dropPrefixChars : List Char → List Char → Option (List Char)
  | [], l => some l
  | _ :: _, [] => none
  | p :: ps, c :: cs => if c = p then dropPrefixChars ps cs else none

/-- The cip57 table-shaped reference `#/definitions/<key>` with a
non-empty, slash-free key (the shape resolveRefCip57 turns into a direct
table lookup). -/
def cipTableKey (s : String) : Option String :=
  match dropPrefixChars "#/definitions/".data s.data with
  | some rest =>
    if rest ≠ [] && rest.all (fun c => ¬(c = '/')) then some (String.mk rest)
    else none
  | none => none

/-- Rank of a schema node for the paramChecker resolver: a resolvable
`$ref` node ranks one above its key's rank; everything else ranks 0. -/
def nodeRank (defs : Defs) (R : String → Nat) (node : JsValue) : Nat :=
  match refString node with
  | some ref =>
    match refKeyOf ref with
    | some k => if (lookupField defs k).isSome then R k + 1 else 0
    | none => 0
  | none => 0

/-- The largest key rank of the table. -/
def maxRankOf (defs : Defs) (R : String → Nat) : Nat :=
  (defs.map (fun p => R p.1)).foldr max 0

/-- A strict upper bound for `nodeRank` over all nodes. -/
def rankBound (defs : Defs) (R : String → Nat) : Nat :=
  maxRankOf defs R + 2

/-- The key ranks decrease along every reference stored in the table
(paramChecker shape): the acyclicity witness for `checkNode`. -/
def RankOk (defs : Defs) (R : String → Nat) : Prop :=
  ∀ p ∈ defs, ∀ (ref k' : String), refString p.2 = some ref →
    refKeyOf ref = some k' → (lookupField defs k').isSome = true → R k' < R p.1

/-- Rank of a schema for cip57's `deref`: a non-empty table-shaped `$ref`
to a present key ranks two above the key; other non-empty refs rank 1. -/
def derefRank (defs : Defs) (R : String → Nat) (schema : JsValue) : Nat :=
  match getField schema "$ref" with
  | some (.str s) =>
    if s = "" then 0
    else
      match cipTableKey s with
      | some k => if (lookupField defs k).isSome then R k + 2 else 1
      | none => 1
  | _ => 0

/-- Every `$ref` stored in the table is a non-empty table-shaped string
reference whose key ranks below the entry's key: the acyclicity witness
for `deref`. -/
def derefShapeOk (defs : Defs) (R : String → Nat) : Prop :=
  ∀ p ∈ defs, ∀ rv, getField p.2 "$ref" = some rv →
    ∃ s, rv = .str s ∧ s ≠ "" ∧ ∃ k, cipTableKey s = some k ∧
      ((lookupField defs k).isSome = true → R k < R p.1)

/-- A schema whose own `$ref`, if any, is the empty string or a non-empty
table-shaped reference (so the chase enters the table or misses it). -/
def cipChaseOk (schema : JsValue) : Prop :=
  ∀ rv, getField schema "$ref" = some rv →
    rv = .str "" ∨ ∃ s k, rv = .str s ∧ s ≠ "" ∧ cipTableKey s = some k

/-- The two-entry definitions table whose references form a cycle. -/
def cyclicDefs : Defs :=
  [("A", .obj [("$ref", .str "#/definitions/B")]),
   ("B", .obj [("$ref", .str "#/definitions/A")])]

/-- A schema node that is just a reference to definition `A`. -/
def refANode : JsValue := .obj [("$ref", .str "#/definitions/A")]

/-- A schema node that is just a reference to definition `B`. -/
def refBNode : JsValue := .obj [("$ref", .str "#/definitions/B")]

/-- Members bound the `foldr max`. -/
theorem le_foldr_max : ∀ (l : List Nat) (x : Nat), x ∈ l → x ≤ l.foldr max 0 := by
  intro l
  induction l with
  | nil => intro x hx; cases hx
  | cons a l ih =>
    intro x hx
    rcases List.mem_cons.mp hx with rfl | hx
    · exact le_max_left _ _
    · exact le_trans (ih x hx) (le_max_right _ _)

/-- `nodeRank` never reaches the bound. -/
theorem nodeRank_lt_rankBound (defs : Defs) (R : String → Nat) (node : JsValue) :
    nodeRank defs R node < rankBound defs R := by
  rcases h1 : refString node with _ | ref
  · simp [nodeRank, rankBound, h1]
  · rcases h2 : refKeyOf ref with _ | k
    · simp [nodeRank, rankBound, h1, h2]
    · rcases h3 : lookupField defs k with _ | v
      · simp [nodeRank, rankBound, h1, h2, h3]
      · have hmem := lookupField_mem h3
        have hle : R k ≤ maxRankOf defs R :=
          le_foldr_max _ _ (List.mem_map_of_mem (fun p => R p.1) hmem)
        simp only [nodeRank, rankBound, h1, h2, h3, Option.isSome_some, if_true]
        omega

/-- Following a resolvable reference strictly decreases `nodeRank` when the
table's key ranks decrease along stored references. -/
theorem nodeRank_resolve_lt (defs : Defs) (R : String → Nat)
    (hrank : RankOk defs R) {node v : JsValue} {ref : String}
    (href : refString node = some ref) (hres : resolveRef ref defs = some v) :
    nodeRank defs R v < nodeRank defs R node := by
  unfold resolveRef at hres
  rcases hkey : refKeyOf ref with _ | k
  · rw [hkey] at hres; cases hres
  · rw [hkey] at hres
    have hres' : lookupField defs k = some v := hres
    have hnode : nodeRank defs R node = R k + 1 := by
      simp only [nodeRank, href, hkey, hres', Option.isSome_some, if_true]
    rw [hnode]
    have hmem := lookupField_mem hres'
    rcases h1 : refString v with _ | ref'
    · simp [nodeRank, h1]
    · rcases h2 : refKeyOf ref' with _ | k'
      · simp [nodeRank, h1, h2]
      · rcases h3 : lookupField defs k' with _ | w
        · simp [nodeRank, h1, h2, h3]
        · have hlt : R k' < R k := hrank (k, v) hmem ref' k' h1 h2 (by rw [h3]; rfl)
          simp only [nodeRank, h1, h2, h3, Option.isSome_some, if_true]
          omega

/-- A list without the separator is one piece. -/
theorem splitOnCharL_no_sep (sep : Char) :
    ∀ l : List Char, sep ∉ l → splitOnCharL sep l = [l] := by
  intro l
  induction l with
  | nil => intro _; rfl
  | cons c rest ih =>
    intro h
    have hc : ¬(c = sep) := fun hcs => h (hcs ▸ List.mem_cons_self _ _)
    have hr : sep ∉ rest := fun hm => h (List.mem_cons_of_mem _ hm)
    simp only [splitOnCharL, ih hr, if_neg hc]

/-- Splitting at the first separator after a separator-free prefix. -/
theorem splitOnCharL_append_sep (sep : Char) :
    ∀ (xs ys : List Char), sep ∉ xs →
      splitOnCharL sep (xs ++ sep :: ys) = xs :: splitOnCharL sep ys := by
  intro xs
  induction xs with
  | nil =>
    intro ys _
    simp [splitOnCharL]
  | cons x xs ih =>
    intro ys h
    have hx : ¬(x = sep) := fun hxs => h (hxs ▸ List.mem_cons_self _ _)
    have hxs : sep ∉ xs := fun hm => h (List.mem_cons_of_mem _ hm)
    show splitOnCharL sep (x :: (xs ++ sep :: ys)) = (x :: xs) :: splitOnCharL sep ys
    simp only [splitOnCharL, ih ys hxs, if_neg hx]

/-- A successful prefix strip decomposes the list. -/
theorem dropPrefixChars_spec :
    ∀ (ps l rest : List Char), dropPrefixChars ps l = some rest → l = ps ++ rest := by
  intro ps
  induction ps with
  | nil =>
    intro l rest h
    exact Option.some.inj h
  | cons p ps ih =>
    intro l rest h
    cases l with
    | nil => cases h
    | cons c cs =>
      simp only [dropPrefixChars] at h
      by_cases hc : c = p
      · rw [if_pos hc] at h
        simp [hc, ih cs rest h]
      · rw [if_neg hc] at h
        cases h

/-- Decomposition behind a successful `cipTableKey`. -/
theorem cipTableKey_spec {s k : String} (h : cipTableKey s = some k) :
    s.data = "#/definitions/".data ++ k.data ∧ k.data ≠ [] ∧ '/' ∉ k.data := by
  unfold cipTableKey at h
  rcases hdp : dropPrefixChars "#/definitions/".data s.data with _ | rest
  · rw [hdp] at h; cases h
  · simp only [hdp] at h
    split at h
    · next hcond =>
      rw [Bool.and_eq_true] at hcond
      obtain ⟨hne, hnc⟩ := hcond
      injection h with h
      subst h
      refine ⟨dropPrefixChars_spec _ _ _ hdp, ?_, ?_⟩
      · intro hnil
        rw [show (String.mk rest).data = rest from rfl] at hnil
        subst hnil
        simp at hne
      · intro hmem
        rw [show (String.mk rest).data = rest from rfl] at hmem
        have hall := List.all_eq_true.mp hnc '/' hmem
        simp at hall
    · cases h

/-- A table-shaped reference resolves (in cip57) to the direct table
lookup. -/
theorem resolveRefCip57_table (defs : Defs) {s k : String}
    (h : cipTableKey s = some k) :
    resolveRefCip57 s defs = (lookupField defs k).getD .undef := by
  obtain ⟨hdata, hne, hns⟩ := cipTableKey_spec h
  unfold resolveRefCip57 splitSlash stripHashSlash
  rw [hdata]
  show ((splitOnCharL '/'
      (['d', 'e', 'f', 'i', 'n', 'i', 't', 'i', 'o', 'n', 's'] ++ '/' :: k.data)).map
      String.mk).foldl jsGetProp (.obj [("definitions", .obj defs)]) = _
  rw [splitOnCharL_append_sep '/' _ _ (by decide), splitOnCharL_no_sep '/' _ hns]
  rfl

/-- The homogeneous element loop answers when every element check
answers. -/
theorem checkHomog_isSome (check : JsValue → JsValue → Option CheckR)
    (item : JsValue) :
    ∀ (l : List JsValue) (i : Nat),
      (∀ v ∈ l, (check item v).isSome = true) →
      (checkHomog check item l i).isSome = true := by
  intro l
  induction l with
  | nil => intro i _; rfl
  | cons v rest ih =>
    intro i h
    obtain ⟨r, hr⟩ := Option.isSome_iff_exists.mp (h v (List.mem_cons_self _ _))
    cases r with
    | ok =>
      simp only [checkHomog, hr]
      exact ih (i + 1) (fun w hw => h w (List.mem_cons_of_mem _ hw))
    | fail m =>
      simp only [checkHomog, hr]
      rfl

/-- The alternative loop answers when every alternative check answers. -/
theorem firstMatch_isSome (check : JsValue → JsValue → Option CheckR)
    (v : JsValue) :
    ∀ (alts : List JsValue), (∀ a ∈ alts, (check a v).isSome = true) →
      (firstMatch check v alts).isSome = true := by
  intro alts
  induction alts with
  | nil => intro _; rfl
  | cons a rest ih =>
    intro h
    obtain ⟨r, hr⟩ := Option.isSome_iff_exists.mp (h a (List.mem_cons_self _ _))
    cases r with
    | ok =>
      simp only [firstMatch, hr]
      rfl
    | fail m =>
      simp only [firstMatch, hr]
      exact ih (fun b hb => h b (List.mem_cons_of_mem _ hb))

/-- The alternation-list element loop answers when every pair answers. -/
theorem checkAltElems_isSome (check : JsValue → JsValue → Option CheckR)
    (alts : List JsValue) :
    ∀ (l : List JsValue) (i : Nat),
      (∀ a ∈ alts, ∀ v ∈ l, (check a v).isSome = true) →
      (checkAltElems check alts l i).isSome = true := by
  intro l
  induction l with
  | nil => intro i _; rfl
  | cons v rest ih =>
    intro i h
    have hfm := firstMatch_isSome check v alts
      (fun a ha => h a ha v (List.mem_cons_self _ _))
    obtain ⟨b, hb⟩ := Option.isSome_iff_exists.mp hfm
    cases b with
    | true =>
      simp only [checkAltElems, hb]
      exact ih (i + 1) (fun a ha w hw => h a ha w (List.mem_cons_of_mem _ hw))
    | false =>
      simp only [checkAltElems, hb]
      rfl

/-- The tuple-form map loop answers when every well-shaped entry's checks
answer. -/
theorem checkMapEntries_isSome (check : JsValue → JsValue → Option CheckR)
    (keysS valuesS : JsValue) :
    ∀ (entries : List JsValue) (i : Nat),
      (∀ e ∈ entries, ∀ k v, e = .arr [k, v] →
        (check keysS k).isSome = true ∧ (check valuesS v).isSome = true) →
      (checkMapEntries check keysS valuesS entries i).isSome = true := by
  intro entries
  induction entries with
  | nil => intro i _; rfl
  | cons e rest ih =>
    intro i h
    simp only [checkMapEntries]
    split
    · next k v =>
      obtain ⟨h1, h2⟩ := h (.arr [k, v]) (List.mem_cons_self _ _) k v rfl
      obtain ⟨r1, hr1⟩ := Option.isSome_iff_exists.mp h1
      cases r1 with
      | fail m =>
        simp only [hr1]
        rfl
      | ok =>
        obtain ⟨r2, hr2⟩ := Option.isSome_iff_exists.mp h2
        cases r2 with
        | fail m =>
          simp only [hr1, hr2]
          rfl
        | ok =>
          simp only [hr1, hr2]
          exact ih (i + 1)
            (fun e' he' k' v' hev => h e' (List.mem_cons_of_mem _ he') k' v' hev)
    · next => rfl

/-- The object-form map loop answers when every field's checks answer. -/
theorem checkMapObj_isSome (check : JsValue → JsValue → Option CheckR)
    (keysS valuesS : JsValue) :
    ∀ (fs : List (String × JsValue)),
      (∀ p ∈ fs,
        (check keysS (.str p.1)).isSome = true ∧ (check valuesS p.2).isSome = true) →
      (checkMapObj check keysS valuesS fs).isSome = true := by
  intro fs
  induction fs with
  | nil => intro _; rfl
  | cons p rest ih =>
    obtain ⟨k, v⟩ := p
    intro h
    obtain ⟨h1, h2⟩ := h (k, v) (List.mem_cons_self _ _)
    obtain ⟨r1, hr1⟩ := Option.isSome_iff_exists.mp h1
    cases r1 with
    | fail m =>
      simp only [checkMapObj, hr1]
      rfl
    | ok =>
      obtain ⟨r2, hr2⟩ := Option.isSome_iff_exists.mp h2
      cases r2 with
      | fail m =>
        simp only [checkMapObj, hr1, hr2]
        rfl
      | ok =>
        simp only [checkMapObj, hr1, hr2]
        exact ih (fun q hq => h q (List.mem_cons_of_mem _ hq))

/-- The positional field loop answers when every pair's check answers. -/
theorem checkFields_isSome (check : JsValue → JsValue → Option CheckR) :
    ∀ (es fs : List JsValue) (i : Nat),
      (∀ p ∈ es.zip fs, (check p.1 p.2).isSome = true) →
      (checkFields check es fs i).isSome = true := by
  intro es
  induction es with
  | nil =>
    intro fs i _
    cases fs with
    | nil => rfl
    | cons f fs => rfl
  | cons e es ih =>
    intro fs i h
    cases fs with
    | nil => rfl
    | cons f fs =>
      obtain ⟨r, hr⟩ := Option.isSome_iff_exists.mp
        (h (e, f) (by rw [List.zip_cons_cons]; exact List.mem_cons_self _ _))
      cases r with
      | fail m =>
        simp only [checkFields, hr]
        rfl
      | ok =>
        simp only [checkFields, hr]
        exact ih fs (i + 1)
          (fun p hp => h p (by rw [List.zip_cons_cons]; exact List.mem_cons_of_mem _ hp))

/-- The list body answers when the checker answers on strictly smaller
values. -/
theorem listCheck_isSome (check : JsValue → JsValue → Option CheckR)
    (inline value : JsValue)
    (hrec : ∀ s w, sizeOf w < sizeOf value → (check s w).isSome = true) :
    (listCheck check inline value).isSome = true := by
  cases value
  case arr elems =>
    have hsz : ∀ v ∈ elems, sizeOf v < sizeOf (JsValue.arr elems) := by
      intro v hv
      have := List.sizeOf_lt_of_mem hv
      simp only [JsValue.arr.sizeOf_spec]
      omega
    rcases hit : getField inline "items" with _ | it
    · simp only [listCheck, hit]
      exact checkHomog_isSome check _ elems 0 (fun v hv => hrec _ v (hsz v hv))
    · cases it
      case arr alts =>
        simp only [listCheck, hit]
        exact checkAltElems_isSome check alts elems 0
          (fun a _ v hv => hrec a v (hsz v hv))
      all_goals
        simp only [listCheck, hit]
        exact checkHomog_isSome check _ elems 0 (fun v hv => hrec _ v (hsz v hv))
  all_goals rfl

/-- The map body answers when the checker answers on strictly smaller
values. -/
theorem mapCheck_isSome (check : JsValue → JsValue → Option CheckR)
    (cfg : CheckCfg) (inline value : JsValue)
    (hrec : ∀ s w, sizeOf w < sizeOf value → (check s w).isSome = true) :
    (mapCheck check cfg inline value).isSome = true := by
  cases value
  case arr entries =>
    simp only [mapCheck]
    apply checkMapEntries_isSome
    intro e he k v hev
    subst hev
    have hm := List.sizeOf_lt_of_mem he
    have hk : sizeOf k < sizeOf (JsValue.arr [k, v]) := by
      have := List.sizeOf_lt_of_mem (List.mem_cons_self k [v])
      simp only [JsValue.arr.sizeOf_spec]
      omega
    have hv : sizeOf v < sizeOf (JsValue.arr [k, v]) := by
      have := List.sizeOf_lt_of_mem
        (List.mem_cons_of_mem k (List.mem_cons_self v []))
      simp only [JsValue.arr.sizeOf_spec]
      omega
    simp only [JsValue.arr.sizeOf_spec] at hk hv hm
    have hae : sizeOf (JsValue.arr entries) = 1 + sizeOf entries := by simp
    exact ⟨hrec _ k (by omega), hrec _ v (by omega)⟩
  case obj fs =>
    simp only [mapCheck]
    split
    · apply checkMapObj_isSome
      intro p hp
      obtain ⟨k, v⟩ := p
      have hm := List.sizeOf_lt_of_mem hp
      simp only [Prod.mk.sizeOf_spec] at hm
      have h1 := one_le_sizeOf v
      constructor
      · apply hrec
        simp only [JsValue.str.sizeOf_spec, JsValue.obj.sizeOf_spec]
        omega
      · apply hrec
        simp only [JsValue.obj.sizeOf_spec]
        omega
    · rfl
  all_goals rfl

/-- The constructor body answers when the checker answers on strictly
smaller values. -/
theorem ctorCheck_isSome (check : JsValue → JsValue → Option CheckR)
    (alts : List JsValue) (value : JsValue)
    (hrec : ∀ s w, sizeOf w < sizeOf value → (check s w).isSome = true) :
    (ctorCheck check alts value).isSome = true := by
  simp only [ctorCheck]
  split
  · split
    · next ctorV fieldVals heq₁ heq₂ =>
      split
      · rfl
      · next alt hfa =>
        split
        · rfl
        · next hne =>
          apply checkFields_isSome
          intro p hp
          obtain ⟨a, b⟩ := p
          apply hrec
          show sizeOf b < sizeOf value
          have hb : b ∈ fieldVals := (List.of_mem_zip hp).2
          have h1 := List.sizeOf_lt_of_mem hb
          have h2 := sizeOf_getField_lt heq₂
          simp only [JsValue.arr.sizeOf_spec] at h2
          omega
    · next => rfl
  · rfl

/-- The anyOf fallthrough answers when the checker answers on strictly
smaller values. -/
theorem anyOfBranchF_isSome (check : JsValue → JsValue → Option CheckR)
    (inline value : JsValue)
    (hrec : ∀ s w, sizeOf w < sizeOf value → (check s w).isSome = true) :
    (anyOfBranchF check inline value).isSome = true := by
  rcases hao : getField inline "anyOf" with _ | w
  · simp only [anyOfBranchF, hao]
    rfl
  · cases w
    case arr alts =>
      simp only [anyOfBranchF, hao]
      exact ctorCheck_isSome check alts value hrec
    all_goals
      simp only [anyOfBranchF, hao]
      rfl

/-- `checkInline` answers when the checker answers on strictly smaller
values. -/
theorem checkInline_isSome (check : JsValue → JsValue → Option CheckR)
    (cfg : CheckCfg) (inline value : JsValue)
    (hrec : ∀ s w, sizeOf w < sizeOf value → (check s w).isSome = true) :
    (checkInline check cfg inline value).isSome = true := by
  have hany := anyOfBranchF_isSome check inline value hrec
  rcases hdt : getField inline "dataType" with _ | w
  · simp only [checkInline, hdt]
    exact hany
  · cases w
    case str dt =>
      simp only [checkInline, hdt]
      by_cases hsh : startsWithHash dt = true
      · rw [if_pos hsh]
        split
        · split <;> rfl
        · split <;> rfl
        · split <;> rfl
        · split <;> rfl
        · split <;> first | rfl | (split <;> rfl)
        · exact listCheck_isSome check inline value hrec
        · rcases value with _ | _ | _ | _ | _ | _ | _ | _ | elems | _
          · rfl
          · rfl
          · rfl
          · rfl
          · rfl
          · rfl
          · rfl
          · rfl
          · cases elems with
            | nil => rfl
            | cons l rest =>
              cases rest with
              | nil => rfl
              | cons r rest2 =>
                cases rest2 with
                | cons x rest3 => rfl
                | nil =>
                  have hl : sizeOf l < sizeOf (JsValue.arr [l, r]) := by
                    have := List.sizeOf_lt_of_mem (List.mem_cons_self l [r])
                    simp only [JsValue.arr.sizeOf_spec]
                    omega
                  have hr2 : sizeOf r < sizeOf (JsValue.arr [l, r]) := by
                    have := List.sizeOf_lt_of_mem
                      (List.mem_cons_of_mem l (List.mem_cons_self r []))
                    simp only [JsValue.arr.sizeOf_spec]
                    omega
                  obtain ⟨r1, hr1⟩ := Option.isSome_iff_exists.mp
                    (hrec ((getField inline "left").getD JsValue.undef) l hl)
                  cases r1 with
                  | fail m =>
                    simp only [hr1]
                    rfl
                  | ok =>
                    obtain ⟨r2, hrr⟩ := Option.isSome_iff_exists.mp
                      (hrec ((getField inline "right").getD JsValue.undef) r hr2)
                    cases r2 with
                    | fail m =>
                      simp only [hr1, hrr]
                      rfl
                    | ok =>
                      simp only [hr1, hrr]
                      rfl
          · rfl
        · rfl
      · rw [if_neg hsh]
        split
        · split <;> rfl
        · split
          · split <;> rfl
          · split
            · exact listCheck_isSome check inline value hrec
            · split
              · exact mapCheck_isSome check cfg inline value hrec
              · exact hany
    all_goals
      simp only [checkInline, hdt]
      exact hany

/-- One step of `checkNode` answers given answers for the resolved
reference (same value) and for any node at a strictly smaller value. -/
theorem checkStep_isSome (defs : Defs) (cfg : CheckCfg)
    (check : JsValue → JsValue → Option CheckR) (node value : JsValue)
    (hrec : ∀ s w, sizeOf w < sizeOf value → (check s w).isSome = true)
    (href : ∀ (ref : String) (v' : JsValue), refString node = some ref →
      resolveRef ref defs = some v' → (check v' value).isSome = true) :
    (checkStep defs cfg check node value).isSome = true := by
  rcases hr : refString node with _ | ref
  · simp only [checkStep, hr]
    by_cases he : isEmptySchemaNode node = true
    · rw [if_pos he]
      split <;> rfl
    · rw [if_neg he]
      exact checkInline_isSome check cfg node value hrec
  · simp only [checkStep, hr]
    rcases hres : resolveRef ref defs with _ | v'
    · simp only [hres]
      rfl
    · simp only [hres]
      exact href ref v' hr hres

/-- `checkNode` terminates (the fuelled model answers) whenever the table's
key ranks decrease along stored references: the fuel needed is bounded by a
linear measure in the value's size and the node's rank. -/
theorem checkNodeF_isSome_of_rank (defs : Defs) (cfg : CheckCfg)
    (R : String → Nat) (hrank : RankOk defs R) :
    ∀ (fuel : Nat) (node value : JsValue),
      rankBound defs R * sizeOf value + nodeRank defs R node < fuel →
      (checkNodeF defs cfg fuel node value).isSome = true := by
  intro fuel
  induction fuel with
  | zero => intro node value h; exact absurd h (Nat.not_lt_zero _)
  | succ n ih =>
    intro node value h
    rw [checkNodeF_succ]
    apply checkStep_isSome
    · intro s w hw
      apply ih
      have hb := nodeRank_lt_rankBound defs R s
      have hmul : rankBound defs R * sizeOf w + rankBound defs R ≤
          rankBound defs R * sizeOf value := by
        have h1 : sizeOf w + 1 ≤ sizeOf value := hw
        have h2 := Nat.mul_le_mul_left (rankBound defs R) h1
        rw [Nat.mul_add, Nat.mul_one] at h2
        exact h2
      omega
    · intro ref v' hrf hres
      apply ih
      have hlt := nodeRank_resolve_lt defs R hrank hrf hres
      omega

/-- On the cyclic table, `checkNode` never answers at any call-stack
depth: the chase alternates between the references to `A` and `B`. -/
theorem checkNodeF_cyclic (cfg : CheckCfg) (value : JsValue) :
    ∀ fuel : Nat, checkNodeF cyclicDefs cfg fuel refANode value = none ∧
      checkNodeF cyclicDefs cfg fuel refBNode value = none := by
  intro fuel
  induction fuel with
  | zero => exact ⟨rfl, rfl⟩
  | succ n ih => exact ⟨ih.2, ih.1⟩

/-- On the cyclic table, `deref` never answers at any call-stack depth. -/
theorem derefF_cyclic :
    ∀ fuel : Nat, derefF cyclicDefs fuel refANode = none ∧
      derefF cyclicDefs fuel refBNode = none := by
  intro fuel
  induction fuel with
  | zero => exact ⟨rfl, rfl⟩
  | succ n ih => exact ⟨ih.2, ih.1⟩

/-- `deref` terminates whenever the table's references are table-shaped
with decreasing key ranks and the start schema's reference is well
shaped. -/
theorem derefF_isSome_of_rank (defs : Defs) (R : String → Nat)
    (hshape : derefShapeOk defs R) :
    ∀ (fuel : Nat) (schema : JsValue), cipChaseOk schema →
      derefRank defs R schema < fuel →
      (derefF defs fuel schema).isSome = true := by
  intro fuel
  induction fuel with
  | zero => intro schema _ h; exact absurd h (Nat.not_lt_zero _)
  | succ n ih =>
    intro schema hcs h
    rw [derefF_succ]
    rcases hrv : getField schema "$ref" with _ | rv
    · simp only [derefStep, hrv]
      rfl
    · rcases hcs rv hrv with rfl | ⟨s, k, rfl, hs, hk⟩
      · simp only [derefStep, hrv]
        rw [if_neg (by simp)]
        rfl
      · simp only [derefStep, hrv]
        rw [if_pos hs, resolveRefCip57_table defs hk]
        rcases hlk : lookupField defs k with _ | v
        · simp only [hlk, Option.getD_none]
          apply ih
          · intro rv' hrv'
            simp [getField] at hrv'
          · have hr1 : derefRank defs R schema = 1 := by
              simp only [derefRank, hrv]
              rw [if_neg hs]
              simp [hk, hlk]
            have hr0 : derefRank defs R JsValue.undef = 0 := rfl
            omega
        · simp only [hlk, Option.getD_some]
          have hmem := lookupField_mem hlk
          apply ih
          · intro rv' hrv'
            obtain ⟨s', rfl, hs', k', hk', -⟩ := hshape (k, v) hmem rv' hrv'
            exact Or.inr ⟨s', k', rfl, hs', hk'⟩
          · have hrs : derefRank defs R schema = R k + 2 := by
              simp only [derefRank, hrv]
              rw [if_neg hs]
              simp [hk, hlk]
            have hrv2 : derefRank defs R v < R k + 2 := by
              rcases hgv : getField v "$ref" with _ | rv'
              · simp [derefRank, hgv]
              · obtain ⟨s', heq, hs', k', hk', himp⟩ := hshape (k, v) hmem rv' hgv
                subst heq
                simp only [derefRank, hgv]
                rw [if_neg hs']
                rcases hlk' : lookupField defs k' with _ | w
                · simp [hk', hlk']
                · have hro : R k' < R k := himp (by rw [hlk']; rfl)
                  simp only [hk', hlk', Option.isSome_some, if_true]
                  omega
            omega

/-- C10 counterexample: on a definitions table whose references form a
cycle (`A` -> `B` -> `A`), both the value checker and the descriptor
builder's `deref` fail to answer at EVERY call-stack depth — the JS
recursion has no base case on such tables and overflows the stack — while
an acyclic one-entry variant of the same shape answers at depth 2.  This
refutes "it terminates ... including tables whose references form a
cycle". -/
theorem C10_counterexample_cyclic_table :
    (∀ (fuel : Nat) (value : JsValue) (cfg : CheckCfg),
      checkNodeF cyclicDefs cfg fuel refANode value = none) ∧
    (∀ fuel : Nat, derefF cyclicDefs fuel refANode = none) ∧
    checkNodeF [("A", .obj [("dataType", .str "integer")])] DEFAULT_CFG 2
      refANode (.int 1) = some .ok ∧
    derefF [("A", .obj [("dataType", .str "integer")])] 2 refANode =
      some (.obj [("dataType", .str "integer")]) :=
  ⟨fun fuel value cfg => (checkNodeF_cyclic cfg value fuel).1,
   fun fuel => (derefF_cyclic fuel).1, rfl, rfl⟩

/-- C10 (amended): the core operations are total EXCEPT through `$ref`
recursion.  On the cyclic table both `checkNode` and `deref` fail to
answer at every call-stack depth (the fuelled model returns none for all
fuel: the JS functions overflow the stack rather than return).  They ARE
total on reference-acyclic tables: whenever some ranking of the definition
keys decreases along every stored reference, `checkNode` answers within
fuel linear in the value's size (per-step work over lists, maps, pairs and
constructor fields always recurses into strictly smaller values), and
`deref` answers within fuel bounded by the start schema's rank when the
table's references are table-shaped with decreasing ranks. -/
theorem C10_totality (defs : Defs) (cfg : CheckCfg) (R Rd : String → Nat)
    (schema : JsValue)
    (hrank : RankOk defs R)
    (hshape : derefShapeOk defs Rd)
    (hstart : cipChaseOk schema) :
    (∀ (fuel : Nat) (value : JsValue),
      checkNodeF cyclicDefs cfg fuel refANode value = none) ∧
    (∀ fuel : Nat, derefF cyclicDefs fuel refANode = none) ∧
    (∀ (fuel : Nat) (node value : JsValue),
      rankBound defs R * sizeOf value + nodeRank defs R node < fuel →
      (checkNodeF defs cfg fuel node value).isSome = true) ∧
    (∀ fuel : Nat, derefRank defs Rd schema < fuel →
      (derefF defs fuel schema).isSome = true) := by
  refine ⟨?_, ?_, ?_, ?_⟩
  · intro fuel value
    exact (checkNodeF_cyclic cfg value fuel).1
  · intro fuel
    exact (derefF_cyclic fuel).1
  · exact checkNodeF_isSome_of_rank defs cfg R hrank
  · intro fuel h
    exact derefF_isSome_of_rank defs Rd hshape fuel schema hstart h

/-- Witness for C10 amended: a one-entry acyclic table with the constant-0
rank; the checker answers the ref-to-integer schema on the value 5 within
the computed fuel, deref answers within 3 steps, and the cyclic table
answers at no fuel (sampled at 7). -/
theorem C10_totality_witness :
    (checkNodeF [("num", .obj [("dataType", .str "integer")])] DEFAULT_CFG 16
      (.obj [("$ref", .str "#/definitions/num")]) (.int 5)).isSome = true ∧
    (derefF [("num", .obj [("dataType", .str "integer")])] 3
      (.obj [("$ref", .str "#/definitions/num")])).isSome = true ∧
    checkNodeF cyclicDefs DEFAULT_CFG 7 refANode (.int 1) = none ∧
    derefF cyclicDefs 7 refANode = none := by
  have h := C10_totality [("num", .obj [("dataType", .str "integer")])]
    DEFAULT_CFG (fun _ => 0) (fun _ => 0)
    (.obj [("$ref", .str "#/definitions/num")])
    (by
      intro p hp ref k' h1 _ _
      rw [List.mem_singleton] at hp
      subst hp
      exact absurd h1 (by simp [refString, lookupField]))
    (by
      intro p hp rv h1
      rw [List.mem_singleton] at hp
      subst hp
      exact absurd h1 (by simp [getField, lookupField]))
    (by
      intro rv h1
      have h2 : some (JsValue.str "#/definitions/num") = some rv := h1
      injection h2 with h2
      subst h2
      exact Or.inr ⟨"#/definitions/num", "num", rfl, by decide, by decide⟩)
  exact ⟨h.2.2.1 16 (.obj [("$ref", .str "#/definitions/num")]) (.int 5) (by decide),
    h.2.2.2 3 (by decide), h.1 7 (.int 1), h.2.1 7⟩

/-- Witness for C2 amended: concrete instantiations of all three parts. -/
theorem C2_unknown_fields_witness :
    ((("junk" : String) ∉ (["preamble", "validators", "definitions"] : List String)) ∧
      (structParse (.obj [("junk", .null)])).isOk = false) ∧
    ((("extra" : String) ∉ (["title", "datum", "redeemer", "parameters", "compiledCode", "hash"] : List String)) ∧
      parseValidator [] (.obj ([("title", .str "x.spend"), ("compiledCode", .str "43aa")] ++ [("extra", .null)])) =
        parseValidator [] (.obj [("title", .str "x.spend"), ("compiledCode", .str "43aa")])) ∧
    ((("extra" : String) ∉ (["$ref", "title", "description"] : List String)) ∧
      schemaDeclOk (.obj [("dataType", .str "bytes")]) = true ∧
      schemaDeclOk (.obj ([("dataType", .str "bytes")] ++ [("extra", .null)])) = true) :=
  ⟨⟨by decide,
    C2_unknown_fields.1 [("junk", .null)] ⟨("junk", .null), List.mem_singleton.mpr rfl, by decide⟩⟩,
   ⟨by decide,
    C2_unknown_fields.2.1 [] [("title", .str "x.spend"), ("compiledCode", .str "43aa")] "extra" .null (by decide)⟩,
   ⟨by decide, by decide,
    C2_unknown_fields.2.2 [("dataType", .str "bytes")] "extra" .null (by decide) (by decide)⟩⟩

/-- C9: for a bytes parameter descriptor without byte-length bounds,
`validate` accepts every hexadecimal input (optional `0x` prefix) and
`coerce` strips the prefix and lower-cases the digits; a non-hexadecimal
input is coerced by UTF-8-encoding the literal text to hex.  In particular
`validate("0xAABB")` passes, `coerce("0xAABB") = "aabb"`, and
`coerce("DOG") = "444f47"`. -/
theorem C9_bytes_descriptor_validate_coerce :
    (∀ raw : String, isHexCip raw = true →
       bytesValidate none none raw = none ∧ bytesCoerce raw = asciiLower (drop0x raw)) ∧
    (∀ raw : String, isHexCip raw = false →
       bytesCoerce raw = asciiLower (encodeUtf8ToHex raw)) ∧
    bytesValidate none none "0xAABB" = none ∧
    bytesCoerce "0xAABB" = "aabb" ∧
    bytesCoerce "DOG" = "444f47" := by
  refine ⟨?_, ?_, by rfl, by rfl, by rfl⟩
  · intro raw h
    obtain ⟨h₁, h₂⟩ := hexEven_spec h
    constructor
    · unfold bytesValidate
      simp only [h, if_true, h₁, h₂, Bool.not_true, Bool.false_eq_true, if_false]
      simp
    · unfold bytesCoerce
      simp [h]
  · intro raw h
    unfold bytesCoerce
    simp [h]

/-- Witness for C9: the universally quantified parts applied at the
spec's own example inputs. -/
theorem C9_bytes_descriptor_validate_coerce_witness :
    (isHexCip "0xAABB" = true ∧
      bytesValidate none none "0xAABB" = none ∧
      bytesCoerce "0xAABB" = asciiLower (drop0x "0xAABB")) ∧
    (isHexCip "DOG" = false ∧
      bytesCoerce "DOG" = asciiLower (encodeUtf8ToHex "DOG")) :=
  ⟨⟨rfl, C9_bytes_descriptor_validate_coerce.1 "0xAABB" rfl⟩,
   ⟨rfl, C9_bytes_descriptor_validate_coerce.2.1 "DOG" rfl⟩⟩

end Blueprint

